import Mathlib

/-!
Verification development for the extended-markdown / ADF conversion engine.

The definitions below are shallow embeddings of the TypeScript sources
`src/parser/markdown-to-adf/ASTBuilder.ts`,
`src/parser/engines/MarkdownToAdfEngine.ts` and
`src/utils/metadata-comments.ts`.  Strings are modelled as `List Char`;
JavaScript objects carrying attributes are modelled as insertion-ordered
association lists; external collaborators (the remark parser, `JSON.parse`,
the emoji lookup table) are taken as parameters of the functions that call
them.  All recursion is fuel-based or structural so that every definition
reduces by `rfl`/`decide` on concrete inputs.
-/

namespace EmadfSpec

/-- Attribute values: the JS primitives that appear in `attrs` objects. -/
inductive AttrV where
  | str (s : String)
  | num (n : Int)
  | boolv (b : Bool)
deriving DecidableEq, Repr

/-- Insertion-ordered attribute map, modelling a JS object. -/
abbrev AList := List (String × AttrV)

/-- JS assignment `obj[k] = v`: overwrite in place, else append at the end. -/
def alSet (m : AList) (k : String) (v : AttrV) : AList :=
  match m with
  | [] => [(k, v)]
  | (k0, v0) :: rest =>
      if k0 = k then (k0, v) :: rest else (k0, v0) :: alSet rest k v

/-- JS object spread `\x7b...a, ...b\x7d`: keys of `a` keep their position,
values overridden by `b`; new keys of `b` are appended in order. -/
def alMerge (a b : AList) : AList :=
  b.foldl (fun acc kv => alSet acc kv.1 kv.2) a

def alLookup (m : AList) (k : String) : Option AttrV :=
  match m with
  | [] => none
  | (k0, v0) :: rest => if k0 = k then some v0 else alLookup rest k

/-- Inline mark of a text leaf. -/
structure Mark where
  type : String
  attrs : AList := []
deriving DecidableEq, Repr

/-- ADF node (target schema).  A flat record models the dynamic JS objects;
fields that a given node kind does not use stay at their defaults. -/
inductive ANode where
  | mk (type : String) (text : String) (attrs : AList) (marks : List Mark)
      (content : List ANode)
deriving Repr

def ANode.type : ANode → String
  | .mk t _ _ _ _ => t

def ANode.text : ANode → String
  | .mk _ s _ _ _ => s

def ANode.attrs : ANode → AList
  | .mk _ _ a _ _ => a

def ANode.marks : ANode → List Mark
  | .mk _ _ _ m _ => m

def ANode.content : ANode → List ANode
  | .mk _ _ _ _ c => c

/-- Text leaf builder. -/
def aText (s : String) (marks : List Mark := []) : ANode :=
  .mk "text" s [] marks []

/-- Generic node builder. -/
def aNode (type : String) (attrs : AList := []) (content : List ANode := []) :
    ANode :=
  .mk type "" attrs [] content

def ANode.withAttrs (n : ANode) (a : AList) : ANode :=
  match n with
  | .mk t s _ m c => .mk t s a m c

def ANode.withMarks (n : ANode) (m : List Mark) : ANode :=
  match n with
  | .mk t s a _ c => .mk t s a m c

def ANode.withContent (n : ANode) (c : List ANode) : ANode :=
  match n with
  | .mk t s a m _ => .mk t s a m c

/-- Parsed metadata carried on a generic node's `data.adfMetadata`. -/
structure MetaC where
  nodeType : String
  attrs : Option AList := none
  raw : String := ""
  marks : Option (List Mark) := none
deriving DecidableEq, Repr

/-- mdast (generic markup) node.  A flat record models the dynamic JS
objects produced by remark; unused fields keep their defaults. -/
inductive MNode where
  | mk (kind : String) (value : String) (depth : Nat) (lang : Option String)
      (metaStr : Option String) (nodeType : String) (attributes : AList)
      (url : String) (alt : Option String) (title : Option String)
      (dataMeta : List MetaC) (children : List MNode)
deriving Repr

def MNode.kind : MNode → String
  | .mk k _ _ _ _ _ _ _ _ _ _ _ => k

def MNode.value : MNode → String
  | .mk _ v _ _ _ _ _ _ _ _ _ _ => v

def MNode.depth : MNode → Nat
  | .mk _ _ d _ _ _ _ _ _ _ _ _ => d

def MNode.lang : MNode → Option String
  | .mk _ _ _ l _ _ _ _ _ _ _ _ => l

def MNode.metaStr : MNode → Option String
  | .mk _ _ _ _ m _ _ _ _ _ _ _ => m

def MNode.nodeType : MNode → String
  | .mk _ _ _ _ _ nt _ _ _ _ _ _ => nt

def MNode.attributes : MNode → AList
  | .mk _ _ _ _ _ _ a _ _ _ _ _ => a

def MNode.url : MNode → String
  | .mk _ _ _ _ _ _ _ u _ _ _ _ => u

def MNode.alt : MNode → Option String
  | .mk _ _ _ _ _ _ _ _ a _ _ _ => a

def MNode.title : MNode → Option String
  | .mk _ _ _ _ _ _ _ _ _ t _ _ => t

def MNode.dataMeta : MNode → List MetaC
  | .mk _ _ _ _ _ _ _ _ _ _ d _ => d

def MNode.children : MNode → List MNode
  | .mk _ _ _ _ _ _ _ _ _ _ _ c => c

def MNode.withChildren (n : MNode) (c : List MNode) : MNode :=
  match n with
  | .mk k v d l m nt a u al ti dm _ => .mk k v d l m nt a u al ti dm c

def MNode.withDataMeta (n : MNode) (dm : List MetaC) : MNode :=
  match n with
  | .mk k v d l m nt a u al ti _ c => .mk k v d l m nt a u al ti dm c

/-- Plain text mdast leaf. -/
def mText (s : String) : MNode :=
  .mk "text" s 0 none none "" [] "" none none [] []

/-- html (comment) mdast leaf. -/
def mHtml (s : String) : MNode :=
  .mk "html" s 0 none none "" [] "" none none [] []

/-- Generic mdast node with children. -/
def mParent (kind : String) (children : List MNode) : MNode :=
  .mk kind "" 0 none none "" [] "" none none [] children

/-- Heading mdast node. -/
def mHeading (depth : Nat) (children : List MNode) : MNode :=
  .mk "heading" "" depth none none "" [] "" none none [] children

/-- Inline-code mdast leaf. -/
def mInlineCode (s : String) : MNode :=
  .mk "inlineCode" s 0 none none "" [] "" none none [] []

/-- Fenced code mdast node (`lang` / `meta` from the fence header line). -/
def mCode (lang : Option String) (metaStr : Option String) (value : String) :
    MNode :=
  .mk "code" value 0 lang metaStr "" [] "" none none [] []

/- ### Character classes and low-level string helpers -/

def lbrace : Char := Char.ofNat 123
def rbrace : Char := Char.ofNat 125
def squote : Char := Char.ofNat 39
def dquote : Char := Char.ofNat 34
def btick : Char := Char.ofNat 96

/-- JS `\s` (the ASCII part used by the sources). -/
def isWsChar (c : Char) : Bool :=
  c = ' ' || c = '\t' || c = '\n' || c = '\r' || c = Char.ofNat 12 ||
    c = Char.ofNat 11

/-- JS `\w`: `[A-Za-z0-9_]`. -/
def isWordChar (c : Char) : Bool :=
  (('a' ≤ c && c ≤ 'z') || ('A' ≤ c && c ≤ 'Z') || ('0' ≤ c && c ≤ '9') ||
    c = '_')

def isDigitChar (c : Char) : Bool :=
  '0' ≤ c && c ≤ '9'

def isAlphaChar (c : Char) : Bool :=
  ('a' ≤ c && c ≤ 'z') || ('A' ≤ c && c ≤ 'Z')

def isAlnumChar (c : Char) : Bool :=
  isAlphaChar c || isDigitChar c

/-- Character class of the emoji short-name pattern `[a-zA-Z0-9_+-]`. -/
def isEmojiNameChar (c : Char) : Bool :=
  isAlnumChar c || c = '_' || c = '+' || c = '-'

/-- `String.trim` as used by JS (`value.trim()`), over char lists. -/
def jsTrimL (cs : List Char) : List Char :=
  ((cs.dropWhile isWsChar).reverse.dropWhile isWsChar).reverse

def jsTrim (s : String) : String :=
  ⟨jsTrimL s.toList⟩

/-- Consume a literal: `dropLit lit cs = some rest` iff `cs = lit ++ rest`. -/
def dropLit : List Char → List Char → Option (List Char)
  | [], cs => some cs
  | _ :: _, [] => none
  | l :: ls, c :: cs => if c = l then dropLit ls cs else none

theorem dropLit_eq {lit cs rest : List Char}
    (h : dropLit lit cs = some rest) : cs = lit ++ rest := by
  induction lit generalizing cs with
  | nil => simpa [dropLit] using h.symm.symm
  | cons l ls ih =>
      cases cs with
      | nil => simp [dropLit] at h
      | cons c cs' =>
          by_cases hc : c = l
          · simp [dropLit, hc] at h
            simp [hc, ih h]
          · simp [dropLit, hc] at h

/-- Maximal run of characters satisfying `p`, and the remainder. -/
def runWhile (p : Char → Bool) (cs : List Char) : List Char × List Char :=
  (cs.takeWhile p, cs.dropWhile p)

theorem runWhile_append (p : Char → Bool) (cs : List Char) :
    (runWhile p cs).1 ++ (runWhile p cs).2 = cs := by
  simp [runWhile, List.takeWhile_append_dropWhile]

/-- Nonempty maximal run (`[...]+` in a regex). -/
def runWhile1 (p : Char → Bool) (cs : List Char) :
    Option (List Char × List Char) :=
  match runWhile p cs with
  | (run, rest) => if run = [] then none else some (run, rest)

theorem runWhile1_eq {p : Char → Bool} {cs run rest : List Char}
    (h : runWhile1 p cs = some (run, rest)) :
    cs = run ++ rest ∧ run ≠ [] := by
  by_cases hr : cs.takeWhile p = []
  · simp [runWhile1, runWhile, hr] at h
  · simp [runWhile1, runWhile, hr] at h
    obtain ⟨h1, h2⟩ := h
    subst h1; subst h2
    exact ⟨(List.takeWhile_append_dropWhile p cs).symm, hr⟩

/-- Does `sub` occur as a substring (JS `String.includes`)? -/
def containsSub (cs sub : List Char) : Bool :=
  match cs with
  | [] => (dropLit sub [] ).isSome
  | _ :: rest =>
      (dropLit sub cs).isSome || containsSub rest sub

def containsStr (s sub : String) : Bool :=
  containsSub s.toList sub.toList

/-- Parse exactly `n` decimal digits into a number (most significant
first), also returning the consumed digit characters. -/
def parseDigitsAcc (acc : Nat) :
    Nat → List Char → Option (Nat × List Char × List Char)
  | 0, cs => some (acc, [], cs)
  | _ + 1, [] => none
  | n + 1, c :: cs =>
      if isDigitChar c then
        match parseDigitsAcc (acc * 10 + (c.toNat - 48)) n cs with
        | some (v, con, rest) => some (v, c :: con, rest)
        | none => none
      else none

def parseDigits (n : Nat) (cs : List Char) :
    Option (Nat × List Char × List Char) :=
  parseDigitsAcc 0 n cs

/- ### Date arithmetic (JS `new Date("YYYY-MM-DDT00:00:00.000Z").getTime()`) -/

/-- Leap year in the proleptic Gregorian calendar. -/
def isLeapYear (y : Nat) : Bool :=
  (y % 4 = 0 && y % 100 ≠ 0) || y % 400 = 0

def daysInMonth (y m : Nat) : Nat :=
  if m = 2 then (if isLeapYear y then 29 else 28)
  else if m = 4 || m = 6 || m = 9 || m = 11 then 30
  else 31

/-- The ISO date-time parser of JS rejects out-of-range components. -/
def isValidDate (y m d : Nat) : Bool :=
  1 ≤ m && m ≤ 12 && 1 ≤ d && d ≤ daysInMonth y m

/-- Days from the Unix epoch to `y-m-d` (civil-from-days, Gregorian). -/
def epochDays (y m d : Nat) : Int :=
  let yi : Int := (y : Int) - (if m ≤ 2 then 1 else 0)
  let era : Int := yi.fdiv 400
  let yoe : Int := yi - era * 400
  let mp : Int := (m : Int) + (if 2 < m then (-3 : Int) else 9)
  let doy : Int := (153 * mp + 2).fdiv 5 + (d : Int) - 1
  let doe : Int := yoe * 365 + yoe.fdiv 4 - yoe.fdiv 100 + doy
  era * 146097 + doe - 719468

/-- `date.getTime().toString()` for a UTC-midnight date, `"NaN"` when JS
rejects the date string. -/
def dateTimestampString (y m d : Nat) : String :=
  if isValidDate y m d then toString (epochDays y m d * 86400000) else "NaN"

/- ### Social-token patterns (`findNextSocialElement`, ASTBuilder 726-867) -/

/-- Result of matching one token pattern at one position: the consumed span
(JS `match[0]`), the remaining input, the surface construct the token
denotes, and the produced ADF node. -/
structure MRes where
  consumed : List Char
  rest : List Char
  construct : List Char
  node : ANode

/-- External emoji table (`getEmojiData`): short name to `(id, text)`. -/
abbrev EmojiResolver := String → Option (String × String)

/-- Modelled from the spec: `createFallbackEmojiData` lives in
`src/utils/emoji-mapping.ts`, which is not part of the sources; per spec
4.3 a fallback token uses the literal name as display text and no
resolved id. -/
def createFallbackEmojiData (shortName : String) : String × String :=
  (shortName, shortName)

/-- `\x7buser:([^\x7d]+)\x7d` at the current position. -/
def tryMention (cs : List Char) : Option MRes :=
  match dropLit ("\x7buser:".toList) cs with
  | none => none
  | some r1 =>
      match runWhile1 (fun c => c ≠ rbrace) r1 with
      | none => none
      | some (id, r2) =>
          match r2 with
          | [] => none
          | c :: r3 =>
              if c = rbrace then
                let idS : String := ⟨id⟩
                some { consumed := "\x7buser:".toList ++ id ++ [rbrace]
                       rest := r3
                       construct := "\x7buser:".toList ++ id ++ [rbrace]
                       node := .mk "mention" ""
                         [("id", .str idS), ("text", .str ("@" ++ idS)),
                          ("userType", .str "DEFAULT")] [] [] }
              else none

/-- `:([a-zA-Z0-9_+-]+):` at the current position. -/
def tryEmoji (resolver : EmojiResolver) (cs : List Char) : Option MRes :=
  match cs with
  | [] => none
  | c :: r1 =>
      if c = ':' then
        match runWhile1 isEmojiNameChar r1 with
        | none => none
        | some (name, r2) =>
            match r2 with
            | [] => none
            | c2 :: r3 =>
                if c2 = ':' then
                  let nameS : String := ⟨name⟩
                  let data :=
                    match resolver nameS with
                    | some d => d
                    | none => createFallbackEmojiData nameS
                  some { consumed := ':' :: name ++ [':']
                         rest := r3
                         construct := ':' :: name ++ [':']
                         node := .mk "emoji" ""
                           [("shortName", .str (":" ++ nameS ++ ":")),
                            ("id", .str data.1), ("text", .str data.2)]
                           [] [] }
                else none
      else none

/-- The date node built by both date patterns. -/
def dateNode (y m d : Nat) : ANode :=
  .mk "date" "" [("timestamp", .str (dateTimestampString y m d))] [] []

/-- `\d\x7b4\x7d-\d\x7b2\x7d-\d\x7b2\x7d` at the current position; returns
components, the literal and the rest. -/
def tryDateCore (cs : List Char) :
    Option ((Nat × Nat × Nat) × List Char × List Char) :=
  match parseDigits 4 cs with
  | none => none
  | some (y, cy, r1) =>
      match r1 with
      | [] => none
      | c1 :: r2 =>
          if c1 = '-' then
            match parseDigits 2 r2 with
            | none => none
            | some (m, cm, r3) =>
                match r3 with
                | [] => none
                | c2 :: r4 =>
                    if c2 = '-' then
                      match parseDigits 2 r4 with
                      | none => none
                      | some (d, cd, r5) =>
                          some ((y, m, d),
                            cy ++ '-' :: cm ++ '-' :: cd, r5)
                    else none
          else none

/-- `\x7bdate:(\d\x7b4\x7d-\d\x7b2\x7d-\d\x7b2\x7d)\x7d`. -/
def tryDateExplicit (cs : List Char) : Option MRes :=
  match dropLit ("\x7bdate:".toList) cs with
  | none => none
  | some r1 =>
      match tryDateCore r1 with
      | none => none
      | some ((y, m, d), lit, r2) =>
          match r2 with
          | [] => none
          | c :: r3 =>
              if c = rbrace then
                some { consumed := "\x7bdate:".toList ++ lit ++ [rbrace]
                       rest := r3
                       construct := "\x7bdate:".toList ++ lit ++ [rbrace]
                       node := dateNode y m d }
              else none

/-- The negative lookahead `(?![\w-])` after a bare date. -/
def dateLookaheadOk : List Char → Bool
  | [] => true
  | c :: _ => !(isWordChar c || c = '-')

/-- The `^` alternative of the bare-date boundary (start of input). -/
def tryDateAtStart (cs : List Char) : Option MRes :=
  match tryDateCore cs with
  | some ((y, m, d), lit, r) =>
      if dateLookaheadOk r then
        some { consumed := lit, rest := r, construct := lit
               node := dateNode y m d }
      else none
  | none => none

/-- The `[^\w-]` alternative: the boundary character is consumed. -/
def tryDateBoundary (cs : List Char) : Option MRes :=
  match cs with
  | [] => none
  | b :: r1 =>
      if !(isWordChar b || b = '-') then
        match tryDateCore r1 with
        | some ((y, m, d), lit, r) =>
            if dateLookaheadOk r then
              some { consumed := b :: lit, rest := r, construct := lit
                     node := dateNode y m d }
            else none
        | none => none
      else none

/-- `(^|[^\w-])(\d\x7b4\x7d-\d\x7b2\x7d-\d\x7b2\x7d)(?![\w-])`: the consumed
span (`match[0]`) includes the boundary character, the construct is the
second capture group (the code's `match[2]`). -/
def tryDateBare (isStart : Bool) (cs : List Char) : Option MRes :=
  match (if isStart then tryDateAtStart cs else none) with
  | some r => some r
  | none => tryDateBoundary cs

def validStatusColors : List String :=
  ["neutral", "purple", "blue", "red", "yellow", "green"]

/-- `\x7bstatus:([^|\x7d]+)(?:\|color:([^\x7d]*))?\x7d`. -/
def tryStatus (cs : List Char) : Option MRes :=
  match dropLit ("\x7bstatus:".toList) cs with
  | none => none
  | some r1 =>
      match runWhile1 (fun c => c ≠ '|' && c ≠ rbrace) r1 with
      | none => none
      | some (txt, r2) =>
          let mkRes (colorPart : List Char) (colorRaw : Option (List Char))
              (r3 : List Char) : MRes :=
            let colorS : String := ⟨(colorRaw.getD [])⟩
            let finalColor :=
              if colorS = "" then "neutral"
              else if validStatusColors.contains colorS then colorS
              else "neutral"
            let con := "\x7bstatus:".toList ++ txt ++ colorPart ++ [rbrace]
            { consumed := con, rest := r3, construct := con
              node := .mk "status" ""
                [("text", .str ⟨txt⟩), ("color", .str finalColor)] [] [] }
          match r2 with
          | [] => none
          | c :: r3 =>
              if c = rbrace then some (mkRes [] none r3)
              else if c = '|' then
                match dropLit ("color:".toList) r3 with
                | none => none
                | some r4 =>
                    match r4.dropWhile (fun c => c ≠ rbrace) with
                    | [] => none
                    | c2 :: r6 =>
                        if c2 = rbrace then
                          some (mkRes
                            ('|' :: "color:".toList ++
                              r4.takeWhile (fun c => c ≠ rbrace))
                            (some (r4.takeWhile (fun c => c ≠ rbrace))) r6)
                        else none
              else none

/-- `\[([^\]]*)\]\(card:([^)]+)\)`. -/
def tryCard (cs : List Char) : Option MRes :=
  match cs with
  | [] => none
  | c :: r1 =>
      if c = '[' then
        match dropLit ("](card:".toList)
            (r1.dropWhile (fun c => c ≠ ']')) with
        | none => none
        | some r3 =>
            match runWhile1 (fun c => c ≠ ')') r3 with
            | none => none
            | some (url, r4) =>
                match r4 with
                | [] => none
                | c2 :: r5 =>
                    if c2 = ')' then
                      let txt := r1.takeWhile (fun c => c ≠ ']')
                      let con := '[' :: txt ++ "](card:".toList ++
                        url ++ [')']
                      some { consumed := con, rest := r5, construct := con
                             node := .mk "inlineCard" ""
                               [("url", .str ⟨url⟩)] [] [] }
                    else none
      else none

/-- `!\[([^\]]*)\]\(media:([^)]+)\)`. -/
def tryMedia (cs : List Char) : Option MRes :=
  match dropLit ("![".toList) cs with
  | none => none
  | some r1 =>
      match dropLit ("](media:".toList)
          (r1.dropWhile (fun c => c ≠ ']')) with
      | none => none
      | some r3 =>
          match runWhile1 (fun c => c ≠ ')') r3 with
          | none => none
          | some (id, r4) =>
              match r4 with
              | [] => none
              | c2 :: r5 =>
                  if c2 = ')' then
                    let alt := r1.takeWhile (fun c => c ≠ ']')
                    let con := "![".toList ++ alt ++ "](media:".toList ++
                      id ++ [')']
                    some { consumed := con, rest := r5, construct := con
                           node := .mk "mediaReference" ""
                             [("id", .str ⟨id⟩), ("alt", .str ⟨alt⟩),
                              ("mediaType", .str "file"),
                              ("collection", .str "")] [] [] }
                  else none

/- ### Leftmost-earliest scan (`findNextSocialElement`) -/

/-- A matcher tried at every position; the Bool marks position 0 (for the
`^` alternative of the bare-date pattern). -/
abbrev Matcher := Bool → List Char → Option MRes

/-- First match of one pattern: scan positions left to right. -/
def scanFirstAux (m : Matcher) : Bool → Nat → List Char → Option (Nat × MRes)
  | isStart, i, [] =>
      match m isStart [] with
      | some r => some (i, r)
      | none => none
  | isStart, i, c :: t =>
      match m isStart (c :: t) with
      | some r => some (i, r)
      | none => scanFirstAux m false (i + 1) t

def scanFirst (m : Matcher) (cs : List Char) : Option (Nat × MRes) :=
  scanFirstAux m true 0 cs

/-- A matcher is well formed when a match splits its input into the
consumed span and the rest, and consumes at least one character. -/
def MatcherWf (m : Matcher) : Prop :=
  ∀ b cs r, m b cs = some r → cs = r.consumed ++ r.rest ∧ r.consumed ≠ []

/-- The pattern list of `findNextSocialElement`, in source order. -/
def socialMatchers (resolver : EmojiResolver) : List Matcher :=
  [fun _ => tryMention,
   fun _ => tryEmoji resolver,
   fun _ => tryDateExplicit,
   tryDateBare,
   fun _ => tryStatus,
   fun _ => tryCard,
   fun _ => tryMedia]

/-- One step of the source's fold over patterns: keep the strictly
earlier match (`match.index < earliestMatch.index`), so ties keep the
earlier pattern. -/
def pickBetter {α : Type} (acc o : Option (Nat × α)) : Option (Nat × α) :=
  match o with
  | none => acc
  | some (j, r) =>
      match acc with
      | none => some (j, r)
      | some (i, r0) => if j < i then some (j, r) else some (i, r0)

/-- The fold over the per-pattern first matches. -/
def pickEarliest {α : Type} (acc : Option (Nat × α)) :
    List (Option (Nat × α)) → Option (Nat × α)
  | [] => acc
  | o :: rest => pickEarliest (pickBetter acc o) rest

/-- `findNextSocialElement` (ASTBuilder 726-867): evaluate every pattern,
return the match with the smallest start offset. -/
def findNextSocialElement (resolver : EmojiResolver) (cs : List Char) :
    Option (Nat × MRes) :=
  pickEarliest none ((socialMatchers resolver).map (fun m => scanFirst m cs))

/- ### Span lemmas: each pattern consumes exactly what it matches -/

theorem parseDigitsAcc_eq {acc n : Nat} {cs con rest : List Char} {v : Nat}
    (h : parseDigitsAcc acc n cs = some (v, con, rest)) :
    cs = con ++ rest ∧ con.length = n := by
  induction n generalizing acc cs con with
  | zero =>
      unfold parseDigitsAcc at h
      cases h
      simp
  | succ k ih =>
      cases cs with
      | nil => exact Option.noConfusion h
      | cons c t =>
          unfold parseDigitsAcc at h
          split at h
          · split at h
            · next v2 con2 rest2 heq =>
                cases h
                obtain ⟨e1, e2⟩ := ih heq
                constructor
                · simpa using congrArg (c :: ·) e1
                · simpa using e2
            · exact Option.noConfusion h
          · exact Option.noConfusion h

theorem tryDateCore_eq {cs : List Char} {ymd : Nat × Nat × Nat}
    {lit r : List Char} (h : tryDateCore cs = some (ymd, lit, r)) :
    cs = lit ++ r ∧ lit ≠ [] := by
  unfold tryDateCore at h
  split at h
  · exact Option.noConfusion h
  · next y cy r1 h1 =>
      split at h
      · exact Option.noConfusion h
      · next c1 r2 =>
          split at h
          · next hc1 =>
              split at h
              · exact Option.noConfusion h
              · next m cm r3 h2 =>
                  split at h
                  · exact Option.noConfusion h
                  · next c2 r4 =>
                      split at h
                      · next hc2 =>
                          split at h
                          · exact Option.noConfusion h
                          · next d cd r5 h3 =>
                              cases h
                              obtain ⟨e1, e2⟩ := parseDigitsAcc_eq h1
                              obtain ⟨e3, e4⟩ := parseDigitsAcc_eq h2
                              obtain ⟨e5, e6⟩ := parseDigitsAcc_eq h3
                              subst hc1 hc2
                              constructor
                              · rw [e1, e3, e5]
                                simp
                              · intro hlit
                                have := congrArg List.length hlit
                                simp [e2] at this
                      · exact Option.noConfusion h
          · exact Option.noConfusion h

theorem tryMention_wf : MatcherWf (fun _ => tryMention) := by
  intro b cs r h
  replace h : tryMention cs = some r := h
  unfold tryMention at h
  split at h
  · exact Option.noConfusion h
  · next r1 h1 =>
      split at h
      · exact Option.noConfusion h
      · next id r2 h2 =>
          split at h
          · exact Option.noConfusion h
          · next c r3 =>
              split at h
              · next hc =>
                  cases h
                  obtain ⟨h3, _⟩ := runWhile1_eq h2
                  subst hc
                  refine ⟨?_, by simp⟩
                  rw [dropLit_eq h1, h3]
                  simp
              · exact Option.noConfusion h

theorem tryEmoji_wf (resolver : EmojiResolver) :
    MatcherWf (fun _ => tryEmoji resolver) := by
  intro b cs r h
  replace h : tryEmoji resolver cs = some r := h
  unfold tryEmoji at h
  split at h
  · exact Option.noConfusion h
  · next c r1 =>
      split at h
      · next hc =>
          split at h
          · exact Option.noConfusion h
          · next name r2 h2 =>
              split at h
              · exact Option.noConfusion h
              · next c2 r3 =>
                  split at h
                  · next hc2 =>
                      cases h
                      obtain ⟨h3, _⟩ := runWhile1_eq h2
                      subst hc hc2
                      refine ⟨?_, by simp⟩
                      rw [h3]
                      simp
                  · exact Option.noConfusion h
      · exact Option.noConfusion h

theorem tryDateExplicit_wf : MatcherWf (fun _ => tryDateExplicit) := by
  intro b cs r h
  replace h : tryDateExplicit cs = some r := h
  unfold tryDateExplicit at h
  split at h
  · exact Option.noConfusion h
  · next r1 h1 =>
      split at h
      · exact Option.noConfusion h
      · next ymd lit r2 h2 =>
          split at h
          · exact Option.noConfusion h
          · next c r3 =>
              split at h
              · next hc =>
                  cases h
                  obtain ⟨h3, _⟩ := tryDateCore_eq h2
                  subst hc
                  refine ⟨?_, by simp⟩
                  rw [dropLit_eq h1, h3]
                  simp
              · exact Option.noConfusion h

theorem takeWhile_extend {p : Char → Bool} (l : List Char) (c : Char)
    (r : List Char) (hc : p c = false) :
    List.takeWhile p (List.takeWhile p l ++ c :: r) = List.takeWhile p l := by
  have hall : ∀ x ∈ List.takeWhile p l, p x = true :=
    fun x hx => List.mem_takeWhile_imp hx
  generalize List.takeWhile p l = t at hall ⊢
  induction t with
  | nil => simp [List.takeWhile, hc]
  | cons a t ih =>
      have ha : p a = true := hall a (by simp)
      simp only [List.cons_append, List.takeWhile, ha, ite_true]
      have := ih (fun x hx => hall x (by simp [hx]))
      simp only [List.append_eq] at this ⊢
      rw [this]


theorem tryDateAtStart_eq {cs : List Char} {r : MRes}
    (h : tryDateAtStart cs = some r) :
    cs = r.consumed ++ r.rest ∧ r.consumed ≠ [] := by
  unfold tryDateAtStart at h
  split at h
  · next ymd lit rr h2 =>
      split at h
      · cases h
        obtain ⟨h3, h4⟩ := tryDateCore_eq h2
        exact ⟨h3, h4⟩
      · exact Option.noConfusion h
  · exact Option.noConfusion h

theorem tryDateBoundary_eq {cs : List Char} {r : MRes}
    (h : tryDateBoundary cs = some r) :
    cs = r.consumed ++ r.rest ∧ r.consumed ≠ [] := by
  unfold tryDateBoundary at h
  split at h
  · exact Option.noConfusion h
  · next bc r1 =>
      split at h
      · split at h
        · next ymd lit rr h2 =>
            split at h
            · cases h
              obtain ⟨h3, _⟩ := tryDateCore_eq h2
              refine ⟨?_, by simp⟩
              rw [h3]
              simp
            · exact Option.noConfusion h
        · exact Option.noConfusion h
      · exact Option.noConfusion h

theorem tryDateBare_wf : MatcherWf tryDateBare := by
  intro b cs r h
  unfold tryDateBare at h
  split at h
  · next r0 hz =>
      cases h
      by_cases hb : b
      · rw [if_pos hb] at hz
        exact tryDateAtStart_eq hz
      · rw [if_neg hb] at hz
        exact Option.noConfusion hz
  · exact tryDateBoundary_eq h

theorem tryStatus_wf : MatcherWf (fun _ => tryStatus) := by
  intro b cs r h
  replace h : tryStatus cs = some r := h
  unfold tryStatus at h
  split at h
  · exact Option.noConfusion h
  · next r1 h1 =>
      split at h
      · exact Option.noConfusion h
      · next txt r2 h2 =>
          split at h
          · exact Option.noConfusion h
          · next c r3 =>
              split at h
              · next hc =>
                  cases h
                  obtain ⟨h3, _⟩ := runWhile1_eq h2
                  subst hc
                  refine ⟨?_, by simp⟩
                  rw [dropLit_eq h1, h3]
                  simp
              · split at h
                · next hpipe =>
                    split at h
                    · exact Option.noConfusion h
                    · next r4 h4 =>
                        split at h
                        · exact Option.noConfusion h
                        · next c2 r6 hdw =>
                            split at h
                            · next hc2 =>
                                cases h
                                obtain ⟨h3, _⟩ := runWhile1_eq h2
                                have h5 : r4 =
                                    r4.takeWhile (fun c => c ≠ rbrace) ++
                                      c2 :: r6 := by
                                  conv_lhs => rw [← List.takeWhile_append_dropWhile
                                    (fun c => c ≠ rbrace) r4]
                                  rw [hdw]
                                subst hpipe hc2
                                refine ⟨?_, by simp⟩
                                rw [dropLit_eq h1, h3, dropLit_eq h4, h5]
                                simp
                                exact (takeWhile_extend _ _ _ (by simp)).symm
                            · exact Option.noConfusion h
                · exact Option.noConfusion h

theorem tryCard_wf : MatcherWf (fun _ => tryCard) := by
  intro b cs r h
  replace h : tryCard cs = some r := h
  unfold tryCard at h
  split at h
  · exact Option.noConfusion h
  · next c r1 =>
      split at h
      · next hc =>
          split at h
          · exact Option.noConfusion h
          · next r3 h3 =>
              split at h
              · exact Option.noConfusion h
              · next url r4 h4 =>
                  split at h
                  · exact Option.noConfusion h
                  · next c2 r5 =>
                      split at h
                      · next hc2 =>
                          cases h
                          obtain ⟨h5, _⟩ := runWhile1_eq h4
                          have h2 : r1 =
                              r1.takeWhile (fun c => c ≠ ']') ++
                                r1.dropWhile (fun c => c ≠ ']') :=
                            (List.takeWhile_append_dropWhile
                              (fun c => c ≠ ']') r1).symm
                          subst hc hc2
                          refine ⟨?_, by simp⟩
                          rw [h2, dropLit_eq h3, h5]
                          simp
                          exact (takeWhile_extend _ _ _ (by simp)).symm
                      · exact Option.noConfusion h
      · exact Option.noConfusion h

theorem tryMedia_wf : MatcherWf (fun _ => tryMedia) := by
  intro b cs r h
  replace h : tryMedia cs = some r := h
  unfold tryMedia at h
  split at h
  · exact Option.noConfusion h
  · next r1 h1 =>
      split at h
      · exact Option.noConfusion h
      · next r3 h3 =>
          split at h
          · exact Option.noConfusion h
          · next id r4 h4 =>
              split at h
              · exact Option.noConfusion h
              · next c2 r5 =>
                  split at h
                  · next hc2 =>
                      cases h
                      obtain ⟨h5, _⟩ := runWhile1_eq h4
                      have h2 : r1 =
                          r1.takeWhile (fun c => c ≠ ']') ++
                            r1.dropWhile (fun c => c ≠ ']') :=
                        (List.takeWhile_append_dropWhile
                          (fun c => c ≠ ']') r1).symm
                      subst hc2
                      refine ⟨?_, by simp⟩
                      rw [dropLit_eq h1, h2, dropLit_eq h3, h5]
                      simp
                      exact (takeWhile_extend _ _ _ (by simp)).symm
                  · exact Option.noConfusion h

/-- Every matcher in the pattern list is well formed. -/
theorem socialMatchers_wf (resolver : EmojiResolver) :
    ∀ m ∈ socialMatchers resolver, MatcherWf m := by
  intro m hm
  simp only [socialMatchers, List.mem_cons, List.mem_singleton] at hm
  rcases hm with h | h | h | h | h | h | h | h
  · exact h ▸ tryMention_wf
  · exact h ▸ tryEmoji_wf resolver
  · exact h ▸ tryDateExplicit_wf
  · exact h ▸ tryDateBare_wf
  · exact h ▸ tryStatus_wf
  · exact h ▸ tryCard_wf
  · exact h ▸ tryMedia_wf
  · cases h

/- ### Properties of the position scan and the earliest-match fold -/

theorem scanFirstAux_span {m : Matcher} (hm : MatcherWf m) :
    ∀ (cs : List Char) (b : Bool) (i j : Nat) (r : MRes),
      scanFirstAux m b i cs = some (j, r) →
        i ≤ j ∧ cs = cs.take (j - i) ++ r.consumed ++ r.rest ∧
          r.consumed ≠ [] := by
  intro cs
  induction cs with
  | nil =>
      intro b i j r h
      unfold scanFirstAux at h
      split at h
      · next rr hr =>
          obtain ⟨hsp, hne⟩ := hm _ _ _ hr
          exact absurd hsp.symm (by simp [hne])
      · exact Option.noConfusion h
  | cons c t ih =>
      intro b i j r h
      unfold scanFirstAux at h
      split at h
      · next rr hr =>
          cases h
          obtain ⟨hsp, hne⟩ := hm _ _ _ hr
          exact ⟨le_refl _, by simpa using hsp, hne⟩
      · obtain ⟨h1, h2, h3⟩ := ih false (i + 1) j r h
        refine ⟨by omega, ?_, h3⟩
        have hj : j - i = (j - (i + 1)) + 1 := by omega
        rw [hj]
        simpa [List.take_succ_cons] using congrArg (c :: ·) h2

theorem scanFirst_span {m : Matcher} (hm : MatcherWf m) {cs : List Char}
    {j : Nat} {r : MRes} (h : scanFirst m cs = some (j, r)) :
    cs = cs.take j ++ r.consumed ++ r.rest ∧ r.consumed ≠ [] := by
  obtain ⟨-, h2, h3⟩ := scanFirstAux_span hm cs true 0 j r h
  exact ⟨by simpa using h2, h3⟩

theorem pickBetter_some_o {α : Type} {acc o : Option (Nat × α)} {j : Nat} {rr : α}
    (ho : o = some (j, rr)) :
    ∃ x, pickBetter acc o = some x ∧ x.1 ≤ j := by
  subst ho
  cases acc with
  | none => exact ⟨(j, rr), rfl, le_refl _⟩
  | some q =>
      obtain ⟨i0, r0⟩ := q
      by_cases hlt : j < i0
      · exact ⟨(j, rr), by simp [pickBetter, hlt], le_refl _⟩
      · exact ⟨(i0, r0), by simp [pickBetter, hlt], by omega⟩

theorem pickBetter_some_acc {α : Type} {acc o : Option (Nat × α)} {j : Nat}
    {rr : α} (ha : acc = some (j, rr)) :
    ∃ x, pickBetter acc o = some x ∧ x.1 ≤ j := by
  subst ha
  cases o with
  | none => exact ⟨(j, rr), rfl, le_refl _⟩
  | some p =>
      obtain ⟨j1, r1⟩ := p
      by_cases hlt : j1 < j
      · exact ⟨(j1, r1), by simp [pickBetter, hlt], by omega⟩
      · exact ⟨(j, rr), by simp [pickBetter, hlt], le_refl _⟩

theorem pickBetter_mem {α : Type} {acc o : Option (Nat × α)} {x : Nat × α}
    (h : pickBetter acc o = some x) : o = some x ∨ acc = some x := by
  cases o with
  | none => exact Or.inr h
  | some p =>
      obtain ⟨j1, r1⟩ := p
      cases acc with
      | none =>
          simp only [pickBetter] at h
          exact Or.inl h
      | some q =>
          obtain ⟨i0, r0⟩ := q
          simp only [pickBetter] at h
          by_cases hlt : j1 < i0
          · rw [if_pos hlt] at h
            exact Or.inl h
          · rw [if_neg hlt] at h
            exact Or.inr h

theorem pickEarliest_min {α : Type} :
    ∀ (l : List (Option (Nat × α))) (acc : Option (Nat × α))
      (i : Nat) (r : α), pickEarliest acc l = some (i, r) →
      (∀ j rr, some (j, rr) ∈ l → i ≤ j) ∧
        (∀ j0 rr0, acc = some (j0, rr0) → i ≤ j0) := by
  intro l
  induction l with
  | nil =>
      intro acc i r h
      refine ⟨by simp, ?_⟩
      intro j0 rr0 hacc
      rw [hacc] at h
      cases h
      exact le_refl _
  | cons o rest ih =>
      intro acc i r h
      replace h : pickEarliest (pickBetter acc o) rest = some (i, r) := h
      obtain ⟨h1, h2⟩ := ih _ _ _ h
      constructor
      · intro j rr hj
        rcases List.mem_cons.mp hj with hj | hj
        · obtain ⟨x, hx, hxle⟩ := @pickBetter_some_o _ acc _ _ _ hj.symm
          have := h2 x.1 x.2 (by rw [hx])
          omega
        · exact h1 _ _ hj
      · intro j0 rr0 hacc
        obtain ⟨x, hx, hxle⟩ := @pickBetter_some_acc _ _ o _ _ hacc
        have := h2 x.1 x.2 (by rw [hx])
        omega

theorem pickEarliest_mem {α : Type} :
    ∀ (l : List (Option (Nat × α))) (acc : Option (Nat × α))
      (x : Nat × α), pickEarliest acc l = some x →
      some x ∈ l ∨ acc = some x := by
  intro l
  induction l with
  | nil =>
      intro acc x h
      exact Or.inr (by simpa [pickEarliest] using h)
  | cons o rest ih =>
      intro acc x h
      replace h : pickEarliest (pickBetter acc o) rest = some x := h
      rcases ih _ _ h with hmem | hacc
      · exact Or.inl (List.mem_cons_of_mem _ hmem)
      · rcases pickBetter_mem hacc with ho | ha
        · exact Or.inl (by rw [← ho]; exact List.mem_cons_self _ _)
        · exact Or.inr ha

/-- Whatever `findNextSocialElement` returns came from scanning one of the
seven patterns. -/
theorem findNextSocialElement_mem {resolver : EmojiResolver}
    {cs : List Char} {i : Nat} {r : MRes}
    (h : findNextSocialElement resolver cs = some (i, r)) :
    ∃ m ∈ socialMatchers resolver, scanFirst m cs = some (i, r) := by
  rcases pickEarliest_mem _ _ _ h with hmem | hacc
  · obtain ⟨m, hm, he⟩ := List.mem_map.mp hmem
    exact ⟨m, hm, he⟩
  · exact Option.noConfusion hacc

/-- Span totality of a single scan step: the input splits exactly into the
text before the match, the consumed span, and the rest. -/
theorem findNextSocialElement_span {resolver : EmojiResolver}
    {cs : List Char} {i : Nat} {r : MRes}
    (h : findNextSocialElement resolver cs = some (i, r)) :
    cs = cs.take i ++ r.consumed ++ r.rest ∧ r.consumed ≠ [] := by
  obtain ⟨m, hm, he⟩ := findNextSocialElement_mem h
  exact scanFirst_span (socialMatchers_wf resolver m hm) he

/-- Leftmost-earliest: the returned match starts no later than any match of
any pattern in the list. -/
theorem findNextSocialElement_min {resolver : EmojiResolver}
    {cs : List Char} {i : Nat} {r : MRes}
    (h : findNextSocialElement resolver cs = some (i, r)) :
    ∀ m ∈ socialMatchers resolver, ∀ j rr,
      scanFirst m cs = some (j, rr) → i ≤ j := by
  intro m hm j rr hs
  obtain ⟨h1, -⟩ := pickEarliest_min _ _ _ _ h
  exact h1 j rr (by
    refine List.mem_map.mpr ⟨m, hm, ?_⟩
    exact hs)

/- ### Inline formatting patterns (`parseInlineMarksRecursively`, 943-1141) -/

/-- Result of one inline-formatting pattern match. -/
structure FRes where
  consumed : List Char
  rest : List Char
  node : ANode

/-- Inline-formatting matcher at one position; the first argument is the
previous character (for the italic lookbehind), `none` at the start. -/
abbrev FMatcher := Option Char → List Char → Option FRes

/-- Marks parsed by `findNextMetadataComment` from its attribute string,
via the global pattern `(\w+)=(?:([^"\s]+)|"([^"]*)")`. -/
def metaCommentAttrPair (cs : List Char) :
    Option ((String × String) × List Char) :=
  match runWhile1 isWordChar cs with
  | none => none
  | some (key, r1) =>
      match r1 with
      | [] => none
      | c :: r2 =>
          if c = '=' then
            match runWhile1 (fun c => !(c = dquote || isWsChar c)) r2 with
            | some (v, r3) => some ((⟨key⟩, ⟨v⟩), r3)
            | none =>
                match r2 with
                | [] => none
                | q :: r3 =>
                    if q = dquote then
                      match runWhile (fun c => c ≠ dquote) r3 with
                      | (v, r4) =>
                          match r4 with
                          | [] => none
                          | q2 :: r5 =>
                              if q2 = dquote then some ((⟨key⟩, ⟨v⟩), r5)
                              else none
                    else none
          else none

/-- Global scan collecting every match of a pair pattern (`matchAll`). -/
def scanPairs (pair : List Char → Option ((String × String) × List Char)) :
    Nat → List Char → List (String × String)
  | 0, _ => []
  | _ + 1, [] => []
  | fuel + 1, c :: t =>
      match pair (c :: t) with
      | some (kv, rest) => kv :: scanPairs pair fuel rest
      | none => scanPairs pair fuel t

/-- The mark switch of `findNextMetadataComment` (900-928). -/
def metaCommentMarks (pairs : List (String × String)) : List Mark :=
  pairs.foldl (fun acc kv =>
    match kv with
    | (k, v) =>
        if k = "underline" then
          if v = "true" then acc ++ [{ type := "underline" }] else acc
        else if k = "color" then
          acc ++ [{ type := "textColor", attrs := [("color", .str v)] }]
        else if k = "backgroundColor" then
          acc ++ [{ type := "backgroundColor", attrs := [("color", .str v)] }]
        else if k = "subscript" then
          if v = "true" then
            acc ++ [{ type := "subsup", attrs := [("type", .str "sub")] }]
          else acc
        else if k = "superscript" then
          if v = "true" then
            acc ++ [{ type := "subsup", attrs := [("type", .str "sup")] }]
          else acc
        else acc) []

/-- The close comment `<!--\s*\/adf:text\s*-->` at the current position. -/
def tryCloseAdfText (cs : List Char) : Option (List Char × List Char) :=
  match dropLit "<!--".toList cs with
  | none => none
  | some r1 =>
      match dropLit "/adf:text".toList (r1.dropWhile isWsChar) with
      | none => none
      | some r2 =>
          match dropLit "-->".toList (r2.dropWhile isWsChar) with
          | none => none
          | some r3 =>
              some ((cs.take (cs.length - r3.length)), r3)

/-- Lazy `(.*?)` scan up to the close comment: JS `.` matches neither
newline nor carriage return. -/
def scanContentToClose : Nat → List Char →
    Option (List Char × List Char × List Char)
  | 0, _ => none
  | fuel + 1, cs =>
      match tryCloseAdfText cs with
      | some (cspan, rest) => some ([], cspan, rest)
      | none =>
          match cs with
          | [] => none
          | c :: t =>
              if c = '\n' || c = '\r' then none
              else
                match scanContentToClose fuel t with
                | some (content, cspan2, rest) =>
                    some (c :: content, cspan2, rest)
                | none => none

/-- `<!--\s*adf:text\s+([^>]+)-->` head of the span-comment patterns:
returns the attribute capture and what follows the `-->`. -/
def tryAdfTextOpen (cs : List Char) : Option (List Char × List Char) :=
  match dropLit "<!--".toList cs with
  | none => none
  | some r1 =>
      match dropLit "adf:text".toList (r1.dropWhile isWsChar) with
      | none => none
      | some r2 =>
          match r2 with
          | [] => none
          | c :: _ =>
              if isWsChar c then
                let r3 := r2.dropWhile isWsChar
                let seg := r3.takeWhile (fun c => c ≠ '>')
                let r4 := r3.dropWhile (fun c => c ≠ '>')
                match r4 with
                | gt :: r5 =>
                    if gt = '>' && decide (3 ≤ seg.length) &&
                        decide (seg.drop (seg.length - 2) = ['-', '-']) then
                      some (seg.take (seg.length - 2), r5)
                    else none
                | [] => none
              else none

/-- `findNextMetadataComment` (882-941): the span-style
`<!-- adf:text attrs -->text<!-- /adf:text -->` inline pattern. -/
def tryMetaComment (cs : List Char) : Option FRes :=
  match tryAdfTextOpen cs with
  | none => none
  | some (attrs, afterOpen) =>
      match scanContentToClose (afterOpen.length + 1) afterOpen with
      | none => none
      | some (content, _cspan, rest) =>
          let marks := metaCommentMarks
            (scanPairs metaCommentAttrPair (attrs.length + 1) attrs)
          some { consumed := cs.take (cs.length - rest.length)
                 rest := rest
                 node := .mk "text" ⟨content⟩ [] marks [] }

/-- First `findNextMetadataComment` match in the input (unanchored). -/
def findNextMetadataComment : Nat → List Char → Option (Nat × FRes)
  | 0, _ => none
  | _ + 1, [] => none
  | fuel + 1, c :: t =>
      match tryMetaComment (c :: t) with
      | some r => some (0, r)
      | none =>
          match findNextMetadataComment fuel t with
          | some (i, r) => some (i + 1, r)
          | none => none

/-- `\[([^\]]+)\]\(([^)]+)\)<!--\s*adf:inlineCard\s*-->` (966-981). -/
def tryCardComment : FMatcher := fun _ cs =>
  match cs with
  | [] => none
  | c :: r1 =>
      if c = '[' then
        match runWhile1 (fun c => c ≠ ']') r1 with
        | none => none
        | some (_, r2) =>
            match r2 with
            | ']' :: '(' :: r3 =>
                match runWhile1 (fun c => c ≠ ')') r3 with
                | none => none
                | some (href, r4) =>
                    match r4 with
                    | ')' :: r5 =>
                        match dropLit "<!--".toList r5 with
                        | none => none
                        | some r6 =>
                            match dropLit "adf:inlineCard".toList
                                (r6.dropWhile isWsChar) with
                            | none => none
                            | some r7 =>
                                match dropLit "-->".toList
                                    (r7.dropWhile isWsChar) with
                                | none => none
                                | some r8 =>
                                    some { consumed := cs.take (cs.length - r8.length), rest := r8, node := .mk "inlineCard" "" [("url", .str ⟨href⟩)] [] [] }
                    | _ => none
            | _ => none
      else none

/-- `\[([^\]]*)\]\(card:([^)]+)\)` (982-997). -/
def tryCardColon : FMatcher := fun _ cs =>
  match tryCard cs with
  | some r => some { consumed := r.consumed, rest := r.rest, node := r.node }
  | none => none

/-- `\[([^\]]+)\]\(([^)]+)\)` (998-1014): a link becomes a text leaf with a
`link` mark carrying `href`. -/
def tryLinkPat : FMatcher := fun _ cs =>
  match cs with
  | [] => none
  | c :: r1 =>
      if c = '[' then
        match runWhile1 (fun c => c ≠ ']') r1 with
        | none => none
        | some (txt, r2) =>
            match r2 with
            | ']' :: '(' :: r3 =>
                match runWhile1 (fun c => c ≠ ')') r3 with
                | none => none
                | some (href, r4) =>
                    match r4 with
                    | ')' :: r5 =>
                        some { consumed := '[' :: txt ++ ']' :: '(' :: href ++ [')'], rest := r5, node := .mk "text" ⟨txt⟩ [] [{ type := "link", attrs := [("href", .str ⟨href⟩)] }] [] }
                    | _ => none
            | _ => none
      else none

/-- `\*\*([^*]+)\*\*` (1015-1031). -/
def tryBold : FMatcher := fun _ cs =>
  match dropLit "**".toList cs with
  | none => none
  | some r1 =>
      match runWhile1 (fun c => c ≠ '*') r1 with
      | none => none
      | some (txt, r2) =>
          match dropLit "**".toList r2 with
          | none => none
          | some r3 =>
              some { consumed := '*' :: '*' :: txt ++ ['*', '*']
                     rest := r3
                     node := .mk "text" ⟨txt⟩ [] [{ type := "strong" }] [] }

/-- `(?<!\*)\*([^*]+)\*(?!\*)` (1032-1048): lookbehind on the previous
character and lookahead on the next. -/
def tryItalic : FMatcher := fun prev cs =>
  if prev = some '*' then none
  else
    match cs with
    | '*' :: r1 =>
        match runWhile1 (fun c => c ≠ '*') r1 with
        | none => none
        | some (txt, r2) =>
            match r2 with
            | '*' :: r3 =>
                if (match r3 with | '*' :: _ => true | _ => false) then none
                else
                  some { consumed := '*' :: txt ++ ['*']
                         rest := r3
                         node := .mk "text" ⟨txt⟩ [] [{ type := "em" }] [] }
            | _ => none
    | _ => none

/-- Inline code (1049-1065): one backtick, content, one backtick. -/
def tryCodePat : FMatcher := fun _ cs =>
  match cs with
  | [] => none
  | c :: r1 =>
      if c = btick then
        match runWhile1 (fun c => c ≠ btick) r1 with
        | none => none
        | some (txt, r2) =>
            match r2 with
            | [] => none
            | c2 :: r3 =>
                if c2 = btick then
                  some { consumed := btick :: txt ++ [btick]
                         rest := r3
                         node := .mk "text" ⟨txt⟩ [] [{ type := "code" }] [] }
                else none
      else none

/-- The mark switch of the `advancedText` pattern (1077-1096), attribute
pairs matched by `(\w+)=["']?([^"'\s]+)["']?`. -/
def advTextAttrPair (cs : List Char) :
    Option ((String × String) × List Char) :=
  match runWhile1 isWordChar cs with
  | none => none
  | some (key, r1) =>
      match r1 with
      | [] => none
      | c :: r2 =>
          if c = '=' then
            let r3 := match r2 with
              | q :: rest => if q = dquote || q = squote then rest else r2
              | [] => r2
            match runWhile1
                (fun c => !(c = dquote || c = squote || isWsChar c)) r3 with
            | none => none
            | some (v, r4) =>
                let r5 := match r4 with
                  | q :: rest => if q = dquote || q = squote then rest else r4
                  | [] => r4
                some ((⟨key⟩, ⟨v⟩), r5)
          else none

def advTextMarks (pairs : List (String × String)) : List Mark :=
  pairs.foldl (fun acc kv =>
    match kv with
    | (k, v) =>
        if k = "underline" then
          if v = "true" then acc ++ [{ type := "underline" }] else acc
        else if k = "textColor" then
          acc ++ [{ type := "textColor", attrs := [("color", .str v)] }]
        else if k = "backgroundColor" then
          acc ++ [{ type := "backgroundColor", attrs := [("color", .str v)] }]
        else if k = "subsup" then
          acc ++ [{ type := "subsup", attrs := [("type", .str v)] }]
        else acc) []

/-- `<!--\s*adf:text\s+([^>]+)\s*-->([^<]+)<!--\s*\/adf:text\s*-->`
(1066-1111): advanced formatting; the text is trimmed. -/
def tryAdvancedText : FMatcher := fun _ cs =>
  match tryAdfTextOpen cs with
  | none => none
  | some (attrs, afterOpen) =>
      match runWhile1 (fun c => c ≠ '<') afterOpen with
      | none => none
      | some (content, r1) =>
          match tryCloseAdfText r1 with
          | none => none
          | some (_, rest) =>
              let marks := advTextMarks
                (scanPairs advTextAttrPair (attrs.length + 1) attrs)
              some { consumed := cs.take (cs.length - rest.length)
                     rest := rest
                     node := .mk "text" (jsTrim ⟨content⟩) [] marks [] }

/-- The inline-formatting pattern list, in source order (964-1112). -/
def pimMatchers : List FMatcher :=
  [tryCardComment, tryCardColon, tryLinkPat, tryBold, tryItalic, tryCodePat,
   tryAdvancedText]

/-- Position scan for an inline-formatting matcher, tracking the previous
character for the italic lookbehind. -/
def fscanAux (m : FMatcher) : Option Char → Nat → List Char →
    Option (Nat × FRes)
  | prev, i, [] =>
      match m prev [] with
      | some r => some (i, r)
      | none => none
  | prev, i, c :: t =>
      match m prev (c :: t) with
      | some r => some (i, r)
      | none => fscanAux m (some c) (i + 1) t

def fscanFirst (m : FMatcher) (cs : List Char) : Option (Nat × FRes) :=
  fscanAux m none 0 cs

/-- The earliest inline-formatting match across the pattern list. -/
def pimFindFirst (cs : List Char) : Option (Nat × FRes) :=
  pickEarliest none (pimMatchers.map (fun m => fscanFirst m cs))

/-- `parseInlineMarksRecursively` (943-1141), fuel-bounded. -/
def pimGo : Nat → List Char → List ANode
  | 0, _ => []
  | fuel + 1, cs =>
      if cs = [] then []
      else
        match findNextMetadataComment (cs.length + 1) cs with
        | some (i, fr) =>
            (if 0 < i then pimGo fuel (cs.take i) else []) ++ [fr.node] ++
              pimGo fuel fr.rest
        | none =>
            match pimFindFirst cs with
            | none => [aText ⟨cs⟩]
            | some (i, fr) =>
                (if 0 < i then pimGo fuel (cs.take i) else []) ++
                  [fr.node] ++
                  (if fr.rest ≠ [] then pimGo fuel fr.rest else [])

def parseInlineMarksRecursively (cs : List Char) : List ANode :=
  pimGo (cs.length + 1) cs

/- ### The social scanner (`parseInlineContentWithSocialElements`, 689-721) -/

/-- Node-producing loop: emit the recursively parsed text before each
social token, the token node, and continue on the remainder. -/
def psGo (resolver : EmojiResolver) : Nat → List Char → List ANode
  | 0, _ => []
  | fuel + 1, cs =>
      if cs = [] then []
      else
        match findNextSocialElement resolver cs with
        | some (i, r) =>
            (if 0 < i then parseInlineMarksRecursively (cs.take i) else []) ++
              [r.node] ++ psGo resolver fuel r.rest
        | none => parseInlineMarksRecursively cs

def parseInlineContentWithSocialElements (resolver : EmojiResolver)
    (s : String) : List ANode :=
  psGo resolver (s.toList.length + 1) s.toList

/-- Trace of the same loop: the emitted plain segments and tokens. -/
inductive Seg where
  | plain (s : List Char)
  | token (r : MRes)

def segsGo (resolver : EmojiResolver) : Nat → List Char → List Seg
  | 0, _ => []
  | fuel + 1, cs =>
      if cs = [] then []
      else
        match findNextSocialElement resolver cs with
        | some (i, r) =>
            (if 0 < i then [Seg.plain (cs.take i)] else []) ++
              [Seg.token r] ++ segsGo resolver fuel r.rest
        | none => [Seg.plain cs]

def scanSocialSegs (resolver : EmojiResolver) (s : String) : List Seg :=
  segsGo resolver (s.toList.length + 1) s.toList

/-- Consumed span of a segment: plain text, or the token's `match[0]`. -/
def segSpan : Seg → List Char
  | .plain s => s
  | .token r => r.consumed

/-- Source text of a segment as the claim reads it: plain text, or the
surface construct the token denotes (for the bare-date token the code's
`match[2]`, the `YYYY-MM-DD` literal itself). -/
def segConstruct : Seg → List Char
  | .plain s => s
  | .token r => r.construct

def segsConcat (f : Seg → List Char) (l : List Seg) : List Char :=
  l.foldr (fun s acc => f s ++ acc) []

/- ### Totality of the scan trace -/

theorem segsConcat_append (f : Seg → List Char) (a b : List Seg) :
    segsConcat f (a ++ b) = segsConcat f a ++ segsConcat f b := by
  induction a with
  | nil => simp [segsConcat]
  | cons s t ih => simp [segsConcat, List.foldr_cons] at ih ⊢; simp [ih]

theorem segsGo_spans (resolver : EmojiResolver) :
    ∀ (fuel : Nat) (cs : List Char), cs.length < fuel →
      segsConcat segSpan (segsGo resolver fuel cs) = cs := by
  intro fuel
  induction fuel with
  | zero => intro cs h; omega
  | succ f ih =>
      intro cs hlen
      unfold segsGo
      by_cases hnil : cs = []
      · simp [hnil, segsConcat]
      · rw [if_neg hnil]
        cases hfind : findNextSocialElement resolver cs with
        | none => simp [segsConcat, segSpan]
        | some p =>
            obtain ⟨i, r⟩ := p
            obtain ⟨hspan, hne⟩ := findNextSocialElement_span hfind
            have hcon : 1 ≤ r.consumed.length := by
              cases hc : r.consumed with
              | nil => exact absurd hc hne
              | cons a b => simp
            have hrest : r.rest.length < f := by
              have := congrArg List.length hspan
              simp at this
              omega
            rw [segsConcat_append, segsConcat_append]
            rw [ih r.rest hrest]
            by_cases hi : 0 < i
            · rw [if_pos hi]
              conv_rhs => rw [hspan]
              simp [segsConcat, segSpan]
            · rw [if_neg hi]
              have hi0 : i = 0 := by omega
              subst hi0
              conv_rhs => rw [hspan]
              simp [segsConcat, segSpan]

/-- Claim C2, amended part: the scan is total at the level of consumed
spans — the plain segments and the spans consumed by the tokens
(`match[0]`) concatenate back to the input, every character exactly once
and in order. -/
theorem scanSocialSegs_spans_total (resolver : EmojiResolver) (s : String) :
    segsConcat segSpan (scanSocialSegs resolver s) = s.toList :=
  segsGo_spans resolver _ s.toList (by omega)

/-- Claim C2, as stated, is false: on `"a 2023-12-25"` the bare-date token
consumes the boundary space inside its `match[0]` but neither the emitted
plain segment (`"a"`) nor the token's date literal (`"2023-12-25"`)
retains it — the space is silently dropped. -/
theorem scanSocialSegs_drops_boundary_char :
    segsConcat segConstruct
      (scanSocialSegs (fun _ => none) "a 2023-12-25") ≠
      "a 2023-12-25".toList := by
  decide

/- ### Leftmost-earliest token precedence -/

/-- The expected node list for the C3 example input. -/
def c3Expected : List ANode :=
  [aText "Hey ",
   .mk "mention" ""
     [("id", .str "alice"), ("text", .str "@alice"),
      ("userType", .str "DEFAULT")] [] [],
   aText ", due ",
   .mk "date" "" [("timestamp", .str "1703462400000")] [] []]

/-- The single bare-date match of the witness input `"a 2023-12-25"`. -/
def c3wRes : MRes :=
  { consumed := " 2023-12-25".toList
    rest := []
    construct := "2023-12-25".toList
    node := dateNode 2023 12 25 }

/-- Claim C3: the scanner emits the token whose match has the smallest
start offset first — the chosen match's index is a lower bound on every
pattern's first-match index, a property independent of the order the
patterns are tried — and the example input yields, in document order,
text, mention(alice), text, date with timestamp 1703462400000. -/
theorem findNextSocialElement_leftmost_earliest :
    (parseInlineContentWithSocialElements (fun _ => none)
        "Hey \x7buser:alice\x7d, due \x7bdate:2023-12-25\x7d" = c3Expected) ∧
      (∀ (resolver : EmojiResolver) (cs : List Char) (i : Nat) (r : MRes),
        findNextSocialElement resolver cs = some (i, r) →
        ∀ m ∈ socialMatchers resolver, ∀ j rr,
          scanFirst m cs = some (j, rr) → i ≤ j) := by
  constructor
  · rfl
  · intro resolver cs i r h m hm j rr hs
    exact findNextSocialElement_min h m hm j rr hs

theorem findNextSocialElement_leftmost_earliest_witness : 1 ≤ 1 := by
  have hm : tryDateBare ∈ socialMatchers (fun _ => none) := by
    unfold socialMatchers
    exact List.mem_cons_of_mem _ (List.mem_cons_of_mem _
      (List.mem_cons_of_mem _ (List.mem_cons_self _ _)))
  exact findNextSocialElement_leftmost_earliest.2 (fun _ => none)
    "a 2023-12-25".toList 1 c3wRes (by rfl) tryDateBare hm 1 c3wRes (by rfl)

/- ### metadata-comments.ts: comment patterns and attribute parsing -/

/-- `[a-zA-Z][a-zA-Z0-9]*` name capture of the metadata patterns. -/
def matchMetaName (cs : List Char) : Option (String × List Char) :=
  match cs with
  | [] => none
  | c :: t =>
      if isAlphaChar c then
        some (⟨c :: t.takeWhile isAlnumChar⟩, t.dropWhile isAlnumChar)
      else none

/-- Shared head `^<!--\s*adf:` (with an optional `/` for closing tags). -/
def metaHead (closing : Bool) (cs : List Char) :
    Option (String × List Char) :=
  match dropLit "<!--".toList cs with
  | none => none
  | some r1 =>
      let r2 := r1.dropWhile isWsChar
      match (if closing then dropLit "/adf:".toList r2
             else dropLit "adf:".toList r2) with
      | none => none
      | some r3 => matchMetaName r3

/-- `^<!--\s*adf:name\s*-->$` (the `simple` pattern). -/
def matchSimple (v : String) : Option String :=
  match metaHead false v.toList with
  | none => none
  | some (name, r) =>
      if r.dropWhile isWsChar = "-->".toList then some name else none

/-- `^<!--\s*\/adf:name\s*-->$` (the `closing` pattern). -/
def matchClosing (v : String) : Option String :=
  match metaHead true v.toList with
  | none => none
  | some (name, r) =>
      if r.dropWhile isWsChar = "-->".toList then some name else none

/-- Does the list end with the given suffix? -/
def endsWithL (cs suffix : List Char) : Bool :=
  decide (cs.drop (cs.length - suffix.length) = suffix) &&
    decide (suffix.length ≤ cs.length)

/-- `^<!--\s*adf:name\s+(.+?)\s*-->$` (the `withAttrs` pattern): after at
least one whitespace the middle capture is the rest with the trailing
`-->` and surrounding whitespace stripped; JS `.` admits no newline.  (When
the middle would be whitespace-only the JS engine still matches with a
whitespace-only capture; `parseAttributeString` then finds no pairs, so
the observable result equals the `simple` pattern's and we return none.) -/
def matchWithAttrs (v : String) : Option (String × String) :=
  match metaHead false v.toList with
  | none => none
  | some (name, r) =>
      match r with
      | [] => none
      | c :: _ =>
          if isWsChar c then
            let r2 := r.dropWhile isWsChar
            if endsWithL r2 ("-->".toList) then
              let mid0 := r2.take (r2.length - 3)
              let mid := (mid0.reverse.dropWhile isWsChar).reverse
              if mid ≠ [] && mid.all (fun c => c ≠ '\n' && c ≠ '\r') then
                some (name, ⟨mid⟩)
              else none
            else none
          else none

/-- Lazy scan of the JSON group of the `withAttrsJson` pattern: consume
non-newline characters until a brace-quote followed by `\s*-->` at the very
end of the input. -/
def scanJsonLazy : Nat → List Char → Option (List Char)
  | 0, _ => none
  | fuel + 1, cs =>
      match cs with
      | [] => none
      | c :: t =>
          if c = rbrace then
            match t with
            | q :: t2 =>
                if q = squote && t2.dropWhile isWsChar = "-->".toList then
                  some []
                else
                  if c = '\n' || c = '\r' then none
                  else
                    match scanJsonLazy fuel t with
                    | some inner => some (c :: inner)
                    | none => none
            | [] => none
          else if c = '\n' || c = '\r' then none
          else
            match scanJsonLazy fuel t with
            | some inner => some (c :: inner)
            | none => none

/-- `^<!--\s*adf:name\s+attrs='(\x7b.*?\x7d)'\s*-->$` (the legacy
`withAttrsJson` pattern); returns the node type and the brace group. -/
def matchWithAttrsJson (v : String) : Option (String × String) :=
  match metaHead false v.toList with
  | none => none
  | some (name, r) =>
      match r with
      | [] => none
      | c :: _ =>
          if isWsChar c then
            let r2 := r.dropWhile isWsChar
            match dropLit ("attrs=".toList ++ [squote]) r2 with
            | none => none
            | some r3 =>
                match r3 with
                | b :: r4 =>
                    if b = lbrace then
                      match scanJsonLazy (r4.length + 1) r4 with
                      | some inner =>
                          some (name, ⟨lbrace :: inner ++ [rbrace]⟩)
                      | none => none
                    else none
                | [] => none
          else none

/-- `isAdfMetadataComment` (47-64). -/
def isAdfMetadataComment (v : String) : Bool :=
  ((matchWithAttrsJson v).isSome || (matchWithAttrs v).isSome ||
    (matchSimple v).isSome || (matchClosing v).isSome) &&
  !(containsStr v "adf:inlineCard" || containsStr v "adf:blockCard")

/-- JS `Number(value)` on the attribute strings, modelled for whitespace
(`Number("") = 0`) and optionally signed decimal integer literals; other
shapes count as `NaN`. -/
def jsNumberOpt (s : String) : Option Int :=
  let cs := jsTrimL s.toList
  match cs with
  | [] => some 0
  | _ =>
      let (sign, digits) :=
        match cs with
        | '-' :: t => ((-1 : Int), t)
        | '+' :: t => ((1 : Int), t)
        | t => ((1 : Int), t)
      if digits ≠ [] && digits.all isDigitChar then
        some (sign * (digits.foldl
          (fun acc c => acc * 10 + ((c.toNat : Int) - 48)) 0))
      else none

/-- Boolean/number coercion used by `parseAttributeString` (78-87). -/
def coerceAttrValue (v : String) : AttrV :=
  if v = "true" then .boolv true
  else if v = "false" then .boolv false
  else
    match jsNumberOpt v with
    | some n => .num n
    | none => .str v

/-- One match of the quoted pair pattern `(\w+)\s*=\s*"([^"]*)"`. -/
def quotedPair (cs : List Char) : Option ((String × String) × List Char) :=
  match runWhile1 isWordChar cs with
  | none => none
  | some (key, r1) =>
      match dropLit ['='] (r1.dropWhile isWsChar) with
      | none => none
      | some r2 =>
          match (r2.dropWhile isWsChar) with
          | q :: r3 =>
              if q = dquote then
                match r3.dropWhile (fun c => c ≠ dquote) with
                | q2 :: r4 =>
                    if q2 = dquote then
                      some ((⟨key⟩, ⟨r3.takeWhile (fun c => c ≠ dquote)⟩),
                        r4)
                    else none
                | [] => none
              else none
          | [] => none

/-- One match of the unquoted pair pattern `(\w+)\s*=\s*([^\s"]+)`. -/
def unquotedPair (cs : List Char) : Option ((String × String) × List Char) :=
  match runWhile1 isWordChar cs with
  | none => none
  | some (key, r1) =>
      match dropLit ['='] (r1.dropWhile isWsChar) with
      | none => none
      | some r2 =>
          match runWhile1 (fun c => !(isWsChar c || c = dquote))
              (r2.dropWhile isWsChar) with
          | none => none
          | some (v, r3) => some ((⟨key⟩, ⟨v⟩), r3)

/-- `parseAttributeString` (69-115): scan quoted pairs first, then
unquoted pairs, skipping keys that the quoted scan already produced. -/
def parseAttributeString (s : String) : AList :=
  let cs := s.toList
  let qs := scanPairs quotedPair (cs.length + 1) cs
  let attrs1 := qs.foldl
    (fun acc kv => alSet acc kv.1 (coerceAttrValue kv.2)) []
  let us := scanPairs unquotedPair (cs.length + 1) cs
  us.foldl
    (fun acc kv =>
      if (alLookup acc kv.1).isSome then acc
      else alSet acc kv.1 (coerceAttrValue kv.2)) attrs1

/-- External `JSON.parse` of the legacy attribute form. -/
abbrev JsonParse := String → Option AList

/-- `parseAdfMetadataComment` (120-184). -/
def parseAdfMetadataComment (jsonParse : JsonParse) (v : String) :
    Option MetaC :=
  match matchWithAttrsJson v with
  | some (nt, json) =>
      match jsonParse json with
      | some attrs => some { nodeType := nt, attrs := some attrs, raw := v }
      | none => some { nodeType := nt, raw := v }
  | none =>
      match matchWithAttrs v with
      | some (nt, attrString) =>
          let attrs := parseAttributeString attrString
          if attrs ≠ [] then
            some { nodeType := nt, attrs := some attrs, raw := v }
          else some { nodeType := nt, raw := v }
      | none =>
          match matchSimple v with
          | some nt => some { nodeType := nt, raw := v }
          | none =>
              match matchClosing v with
              | some nt =>
                  some { nodeType := nt,
                         attrs := some [("closing", .boolv true)], raw := v }
              | none => none

/- ### Inline mdast → ADF conversion (ASTBuilder 1863-1978) -/

/-- `getNodeMetadata` (415-421): the node's `data.adfMetadata` list. -/
def getNodeMetadata (n : MNode) : List MetaC :=
  n.dataMeta

/-- `isAdfProcessingDirective` (1566-1571). -/
def isAdfProcessingDirective (v : String) : Bool :=
  containsStr v "adf:inlineCard" || containsStr v "adf:blockCard"

/-- JS falsiness of an attribute value. -/
def jsFalsy : AttrV → Bool
  | .str s => s = ""
  | .num n => n = 0
  | .boolv b => !b

/-- Prefix test over the list model (JS `String.startsWith`). -/
def strStartsWith (s p : String) : Bool :=
  (dropLit p.toList s.toList).isSome

/-- `url.match(/^(?:adf:)?media:(.+)$/)`: the media id of a media URL. -/
def mediaUrlId (u : String) : Option String :=
  let cs := u.toList
  let body :=
    match dropLit "adf:media:".toList cs with
    | some r => some r
    | none => dropLit "media:".toList cs
  match body with
  | none => none
  | some rest =>
      if rest ≠ [] && rest.all (fun c => c ≠ '\n' && c ≠ '\r') then
        some ⟨rest⟩
      else none

/-- `convertMdastImage` (1799-1861). -/
def convertMdastImage (n : MNode) : Option ANode :=
  if n.url = "" then none
  else
    match mediaUrlId n.url with
    | none => none
    | some mediaId =>
        if mediaId = "" then none
        else
          let metadata := getNodeMetadata n
          let start : AList × AList :=
            ([("id", .str mediaId), ("type", .str "file")], [])
          let step := metadata.foldl
            (fun (acc : AList × AList) md =>
              match md.attrs with
              | some a =>
                  if md.nodeType = "media" then (alMerge acc.1 a, acc.2)
                  else if md.nodeType = "mediaSingle" then (acc.1, a)
                  else acc
              | none => acc) start
          let withAlt :=
            match n.alt with
            | some a => if a ≠ "" then alSet step.1 "alt" (.str a) else step.1
            | none => step.1
          let withColl :=
            match alLookup withAlt "collection" with
            | some v =>
                if jsFalsy v then alSet withAlt "collection" (.str "")
                else withAlt
            | none => alSet withAlt "collection" (.str "")
          some (ANode.mk "mediaSingle" ""
            (alMerge [("layout", .str "center")] step.2) []
            [ANode.mk "media" "" withColl [] []])

/-- The node types `wrapWithMark` decorates (1965). -/
def markableNodeTypes : List String :=
  ["text", "mention", "emoji", "status", "date", "inlineCard"]

/-- `convertMdastInlineNode` (1886-1955).  The local `conv`/`wrap` closures
are the bodies of `convertMdastInlineNodes`/`wrapWithMark`, inlined here so
that the mutual recursion is structural on the fuel; the top-level
definitions below expose them under their source names. -/
def convertMdastInlineNode (resolver : EmojiResolver) (pu : Bool) :
    Nat → MNode → List ANode
  | 0, _ => []
  | fuel + 1, n =>
      let conv : List MNode → List ANode := fun ns =>
        (ns.map (fun c => convertMdastInlineNode resolver pu fuel c)).flatten
      let wrap : List MNode → String → Option AList → List ANode :=
        fun children markType attrsOpt =>
          let mark : Mark := { type := markType, attrs := attrsOpt.getD [] }
          (conv children).map (fun node =>
            if markableNodeTypes.contains node.type then
              node.withMarks (node.marks ++ [mark])
            else node)
      if n.kind = "text" then
        match n.dataMeta with
        | md :: _ =>
            match md.marks with
            | some ms => [ANode.mk "text" n.value [] ms []]
            | none => parseInlineContentWithSocialElements resolver n.value
        | [] => parseInlineContentWithSocialElements resolver n.value
      else if n.kind = "strong" then wrap n.children "strong" none
      else if n.kind = "emphasis" then wrap n.children "em" none
      else if n.kind = "inlineCode" then
        [ANode.mk "text" n.value [] [{ type := "code" }] []]
      else if n.kind = "delete" then wrap n.children "strike" none
      else if n.kind = "link" then
        if strStartsWith n.url "card:" then
          [aNode "inlineCard" [("url", .str ⟨n.url.toList.drop 5⟩)]]
        else
          wrap n.children "link"
            (some ([("href", .str n.url)] ++
              (match n.title with
               | some t => if t ≠ "" then [("title", .str t)] else []
               | none => [])))
      else if n.kind = "break" then [aNode "hardBreak"]
      else if n.kind = "image" then (convertMdastImage n).toList
      else if n.kind = "html" then
        if isAdfMetadataComment n.value then []
        else if isAdfProcessingDirective n.value then []
        else if pu then [aText ("[HTML: " ++ n.value ++ "]")]
        else []
      else
        [aText (if n.value ≠ "" then n.value else "[" ++ n.kind ++ "]")]

/-- `convertMdastInlineNodes` (1866-1881). -/
def convertMdastInlineNodes (resolver : EmojiResolver) (pu : Bool)
    (fuel : Nat) (ns : List MNode) : List ANode :=
  (ns.map (convertMdastInlineNode resolver pu fuel)).flatten

/-- `wrapWithMark` (1960-1978): convert the children, then push the mark
onto every markable node — with no special case for an existing `code`
mark. -/
def wrapWithMark (resolver : EmojiResolver) (pu : Bool) (fuel : Nat)
    (children : List MNode) (markType : String) (attrsOpt : Option AList) :
    List ANode :=
  let mark : Mark := { type := markType, attrs := attrsOpt.getD [] }
  (convertMdastInlineNodes resolver pu fuel children).map (fun node =>
    if markableNodeTypes.contains node.type then
      node.withMarks (node.marks ++ [mark])
    else node)

/-- Claim C1 (code bug): the markdown `**` + backtick-code + `**` parses to
the mdast fragment `strong [inlineCode "code"]`; converting it pushes the
`strong` mark on top of the existing `code` mark, so the resulting leaf
carries the two marks `[code, strong]` instead of only `code` — the
exclusivity the spec and the repository's code-mark-exclusivity tests
require is not enforced by `wrapWithMark`. -/
theorem code_mark_exclusivity_violated :
    convertMdastInlineNodes (fun _ => none) true 9
        [mParent "strong" [mInlineCode "code"]] =
      [ANode.mk "text" "code" []
        [{ type := "code" }, { type := "strong" }] []] ∧
    (ANode.mk "text" "code" []
        [{ type := "code" }, { type := "strong" }] []).marks ≠
      [{ type := "code" }] := by
  exact ⟨rfl, by decide⟩

/- ### Nesting consolidation (`postProcessNestedAdfFenceBlocks`, 2492-2571) -/

/-- `isAdfFenceBlockType` (2576-2578). -/
def isAdfFenceBlockType (t : String) : Bool :=
  ["panel", "expand", "nestedExpand", "mediaSingle", "mediaGroup"].contains t

/-- The look-ahead predicate of the absorb loop (2538). -/
def nestablePred (m : ANode) : Bool :=
  isAdfFenceBlockType m.type || m.type = "paragraph"

/-- `node.type === 'expand' || node.type === 'panel'` (2500). -/
def isPanelOrExpand (n : ANode) : Bool :=
  n.type = "expand" || n.type = "panel"

/-- `content[j] && content[j].type === node.type` (2510). -/
def headSameType (n : ANode) : List ANode → Bool
  | m :: _ => m.type = n.type
  | [] => false

/-- The indexed loop of `postProcessNestedAdfFenceBlocks`, one recursion
step per loop iteration (`i = j - 1` skips the absorbed nodes). -/
def ppNestedGo : Nat → List ANode → List ANode
  | 0, l => l
  | _ + 1, [] => []
  | fuel + 1, n :: rest =>
      if isPanelOrExpand n && !rest.isEmpty then
        if headSameType n rest then n :: ppNestedGo fuel rest
        else if n.type = "panel" &&
            (rest.take 3).all (fun m => m.type = "panel") &&
            !rest.isEmpty then
          n :: ppNestedGo fuel rest
        else
          let nested := rest.takeWhile nestablePred
          let rest2 := rest.dropWhile nestablePred
          if !nested.isEmpty then
            n.withContent (n.content ++ nested) :: ppNestedGo fuel rest2
          else n :: ppNestedGo fuel rest
      else n :: ppNestedGo fuel rest

/-- `postProcessNestedAdfFenceBlocks` (2492-2571). -/
def postProcessNestedAdfFenceBlocks (l : List ANode) : List ANode :=
  ppNestedGo l.length l

theorem ppNestedGo_nil : ∀ fuel : Nat, ppNestedGo fuel [] = [] := by
  intro fuel
  cases fuel <;> rfl

theorem ppNestedGo_id_of_same {t : String}
    (ht : t = "panel" ∨ t = "expand") :
    ∀ (fuel : Nat) (l : List ANode), (∀ n ∈ l, n.type = t) →
      ppNestedGo fuel l = l := by
  intro fuel
  induction fuel with
  | zero => intro l _; rfl
  | succ f ih =>
      intro l hall
      cases l with
      | nil => rfl
      | cons n rest =>
          have hn : n.type = t := hall n (by simp)
          cases rest with
          | nil =>
              unfold ppNestedGo
              simp [ppNestedGo_nil]
          | cons m rest2 =>
              have hm : m.type = t := hall m (by simp)
              have ihr := ih (m :: rest2) (fun x hx => hall x (by simp [hx]))
              rcases ht with h | h <;> subst h <;>
                simp [ppNestedGo, isPanelOrExpand, headSameType, hn, hm, ihr]

/-- Claim C5: two or more consecutive same-kind containers stay siblings.
First conjunct: when a `panel`/`expand` is immediately followed by another
node of the same type, the heuristic emits it unchanged and proceeds with
the rest — the follower is never absorbed into its children.  Second
conjunct: a whole run of same-kind containers is returned exactly as it
came in. -/
theorem consecutive_same_kind_containers_stay_siblings :
    (∀ (t : String) (n1 n2 : ANode) (rest : List ANode) (fuel : Nat),
      (t = "panel" ∨ t = "expand") → n1.type = t → n2.type = t →
        ppNestedGo (fuel + 1) (n1 :: n2 :: rest) =
          n1 :: ppNestedGo fuel (n2 :: rest)) ∧
    (∀ (l : List ANode) (t : String), (t = "panel" ∨ t = "expand") →
      (∀ n ∈ l, n.type = t) → postProcessNestedAdfFenceBlocks l = l) := by
  constructor
  · intro t n1 n2 rest fuel ht h1 h2
    rcases ht with h | h <;> subst h <;>
      simp [ppNestedGo, isPanelOrExpand, headSameType, h1, h2]
  · intro l t ht hall
    exact ppNestedGo_id_of_same ht l.length l hall

/-- Three consecutive panel containers remain three siblings. -/
theorem consecutive_same_kind_containers_stay_siblings_witness :
    postProcessNestedAdfFenceBlocks
        [aNode "panel" [("panelType", .str "info")] [aText "a"],
         aNode "panel" [("panelType", .str "info")] [aText "b"],
         aNode "panel" [("panelType", .str "info")] [aText "c"]] =
      [aNode "panel" [("panelType", .str "info")] [aText "a"],
       aNode "panel" [("panelType", .str "info")] [aText "b"],
       aNode "panel" [("panelType", .str "info")] [aText "c"]] := by
  exact consecutive_same_kind_containers_stay_siblings.2 _ "panel"
    (Or.inl rfl) (by decide)

/- ### Fence-block resolution (`postProcessAdfFenceBlocks`, engine 368-467) -/

/-- Outcome of the builtin `JSON.parse` as `parseAdfLanguageString` uses
it: an object (merged into the attributes), a non-object JSON value
(falls through to scalar coercion), or a parse error. -/
inductive JsonOutcome where
  | obj (a : AList)
  | nonObj
  | err

abbrev JsonOutcomeFn := String → JsonOutcome

/-- The ADF container kinds (`adfBlockTypes`, 369, and the fence pattern
alternation, 425, in source order). -/
def adfFenceKinds : List String :=
  ["panel", "expand", "nestedExpand", "mediaSingle", "mediaGroup"]

/-- One match of the fence attribute pair pattern
`(\w+)=([^"'\s]+|"[^"]*"|'[^']*')` (486); a quoted value keeps its
quotes (they are stripped afterwards). -/
def adfLangPair (cs : List Char) : Option ((String × String) × List Char) :=
  match runWhile1 isWordChar cs with
  | none => none
  | some (key, r1) =>
      match r1 with
      | [] => none
      | c :: r2 =>
          if c = '=' then
            match runWhile1
                (fun c => !(c = dquote || c = squote || isWsChar c)) r2 with
            | some (v, r3) => some ((⟨key⟩, ⟨v⟩), r3)
            | none =>
                match r2 with
                | q :: r3 =>
                    if q = dquote || q = squote then
                      match r3.dropWhile (fun c => c ≠ q) with
                      | q2 :: r4 =>
                          if q2 = q then
                            some ((⟨key⟩,
                              ⟨q :: r3.takeWhile (fun c => c ≠ q) ++ [q]⟩),
                              r4)
                          else none
                      | [] => none
                    else none
                | [] => none
          else none

/-- Quote stripping (494-497). -/
def stripQuotes (s : String) : String :=
  let cs := s.toList
  match cs with
  | c :: _ =>
      if (c = dquote && cs.getLast? = some dquote) ||
          (c = squote && cs.getLast? = some squote) then
        ⟨(cs.drop 1).dropLast⟩
      else s
  | [] => s

/-- Scalar coercion of a fence attribute value (515-518): booleans, then
numbers via `Number` with the empty string excluded. -/
def coerceAdfValue (v : String) : AttrV :=
  if v = "true" then .boolv true
  else if v = "false" then .boolv false
  else if v ≠ "" then
    match jsNumberOpt v with
    | some n => .num n
    | none => .str v
  else .str v

/-- `parseAdfLanguageString` (479-525). -/
def parseAdfLanguageString (jp : JsonOutcomeFn) (lang meta : String) :
    AList :=
  let full := jsTrim (lang ++ " " ++ meta)
  let pairs := scanPairs adfLangPair (full.toList.length + 1) full.toList
  pairs.foldl
    (fun attrs kv =>
      match kv with
      | (k, vraw) =>
          if k ≠ lang then
            let v1 := stripQuotes vraw
            if k = "attrs" then
              match jp v1 with
              | .obj a => alMerge attrs a
              | .nonObj => alSet attrs k (coerceAdfValue v1)
              | .err => alSet attrs k (.str v1)
            else alSet attrs k (coerceAdfValue v1)
          else attrs) []

/-- Try the fence-kind alternation in source order. -/
def fenceKindOf (cs : List Char) : Option (String × List Char) :=
  adfFenceKinds.foldr
    (fun k acc =>
      match dropLit k.toList cs with
      | some r => some (k, r)
      | none => acc) none

/-- The nested-fence text pattern
`^~~~(panel|expand|nestedExpand|mediaSingle|mediaGroup)([^\n]*)\n([\s\S]*?)\n~~~$`
applied to the trimmed text value (425-430); returns kind, attribute
line and inner content. -/
def fenceMatch (s : String) : Option (String × String × String) :=
  let cs := jsTrimL s.toList
  match dropLit "~~~".toList cs with
  | none => none
  | some r1 =>
      match fenceKindOf r1 with
      | none => none
      | some (kind, r2) =>
          let attrsLine := r2.takeWhile (fun c => c ≠ '\n')
          match r2.dropWhile (fun c => c ≠ '\n') with
          | nl :: r3 =>
              if nl = '\n' && endsWithL r3 ("\n~~~".toList) then
                some (kind, ⟨attrsLine⟩, ⟨r3.take (r3.length - 4)⟩)
              else none
          | [] => none

/-- `processNode` (383-461): the code-block branch, the text branch, and
the recursion into (possibly freshly created) children, reporting whether
anything changed.  The external inner markdown parser is `parse`
(`none` models the caught exception of a failed inner parse); the fuel
bounds the recursion depth that the source bounds by tree finiteness. -/
def processNode (parse : String → Option (List MNode))
    (jp : JsonOutcomeFn) : Nat → MNode → MNode × Bool
  | 0, n => (n, false)
  | fuel + 1, n =>
      let step1 : MNode × Bool :=
        if n.kind = "code" &&
            (match n.lang with
             | some l => l ≠ "" && adfFenceKinds.contains l
             | none => false) then
          let l := n.lang.getD ""
          let attributes := parseAdfLanguageString jp l (n.metaStr.getD "")
          match parse n.value with
          | some kids =>
              (.mk "adfFence" (if l = "mediaGroup" then n.value else "")
                n.depth none none l attributes n.url n.alt n.title
                n.dataMeta kids, true)
          | none =>
              (.mk "adfFence" n.value n.depth none none l attributes
                n.url n.alt n.title n.dataMeta n.children, true)
        else (n, false)
      let n1 := step1.1
      let step2 : MNode × Bool :=
        if n1.kind = "text" && n1.value ≠ "" then
          match fenceMatch n1.value with
          | some kar =>
              match parse kar.2.2 with
              | some kids =>
                  (.mk "adfFence" "" n1.depth none none kar.1
                    (parseAdfLanguageString jp kar.1 (jsTrim kar.2.1))
                    n1.url n1.alt n1.title n1.dataMeta kids, true)
              | none => (n1, false)
          | none => (n1, false)
        else (n1, false)
      let n2 := step2.1
      let results := n2.children.map (processNode parse jp fuel)
      (n2.withChildren (results.map Prod.fst),
        step1.2 || step2.2 || results.any Prod.snd)

/-- One whole-tree pass (463). -/
def fencePass (parse : String → Option (List MNode)) (jp : JsonOutcomeFn)
    (fuel : Nat) (root : MNode) : MNode × Bool :=
  let results := root.children.map (processNode parse jp fuel)
  (root.withChildren (results.map Prod.fst), results.any Prod.snd)

/-- The bounded `while (hasChanges && passCount < maxPasses)` loop
(375-464); also returns the number of passes executed. -/
def fenceLoop (pass : MNode → MNode × Bool) : Nat → MNode → MNode × Nat
  | 0, t => (t, 0)
  | maxp + 1, t =>
      match pass t with
      | (t2, ch) =>
          if ch then
            match fenceLoop pass maxp t2 with
            | (t3, k) => (t3, k + 1)
          else (t2, 1)

/-- `postProcessAdfFenceBlocks` (368-467) with the source's
`maxPasses = 5`. -/
def postProcessAdfFenceBlocks (parse : String → Option (List MNode))
    (jp : JsonOutcomeFn) (fuel : Nat) (root : MNode) : MNode × Nat :=
  fenceLoop (fencePass parse jp fuel) 5 root

theorem fenceLoop_le (pass : MNode → MNode × Bool) :
    ∀ (maxp : Nat) (t : MNode), (fenceLoop pass maxp t).2 ≤ maxp := by
  intro maxp
  induction maxp with
  | zero => intro t; simp [fenceLoop]
  | succ p ih =>
      intro t
      unfold fenceLoop
      cases hp : pass t with
      | mk t2 ch =>
          by_cases hch : ch
          · simp only [hch, if_true]
            cases hl : fenceLoop pass p t2 with
            | mk t3 k =>
                have := ih t2
                rw [hl] at this
                simpa using Nat.succ_le_succ this
          · simp [hch]

theorem MNode.withChildren_self (n : MNode) :
    n.withChildren n.children = n := by
  cases n
  rfl

/-- A failing pass leaves the loop after one iteration. -/
theorem fenceLoop_no_change {pass : MNode → MNode × Bool} {t t2 : MNode}
    (h : pass t = (t2, false)) (maxp : Nat) :
    fenceLoop pass (maxp + 1) t = (t2, 1) := by
  unfold fenceLoop
  rw [h]
  simp

/-- A `~~~panel` fence wrapping. -/
def fenceWrap (s : String) : String :=
  "~~~panel\n" ++ s ++ "\n~~~"

/-- A text leaf holding a fence nested seven levels deep — deeper than the
pass cap. -/
def deepFenceValue : String :=
  fenceWrap (fenceWrap (fenceWrap (fenceWrap (fenceWrap (fenceWrap
    (fenceWrap "hi"))))))

def deepNestedFence : MNode :=
  mText deepFenceValue

/-- Claim C4: the fence-resolution loop always terminates — it runs at
most 5 passes (first conjunct, for every parser behaviour and tree) and
stops as soon as a pass makes no replacement; when the inner parse of a
matched fence fails, the text node is left untouched as literal text
(second conjunct), and on a fence nested seven levels deep with a failing
inner parser the whole conversion returns the input unchanged after a
single pass instead of erroring (third conjunct). -/
theorem fence_resolution_bounded_and_graceful :
    (∀ (parse : String → Option (List MNode)) (jp : JsonOutcomeFn)
      (fuel : Nat) (root : MNode),
      (postProcessAdfFenceBlocks parse jp fuel root).2 ≤ 5) ∧
    (∀ (parse : String → Option (List MNode)) (jp : JsonOutcomeFn)
      (fuel : Nat) (n : MNode) (kar : String × String × String),
      n.kind = "text" → n.value ≠ "" → n.children = [] →
      fenceMatch n.value = some kar → parse kar.2.2 = none →
      processNode parse jp fuel n = (n, false)) ∧
    (postProcessAdfFenceBlocks (fun _ => none) (fun _ => .err) 9
        (mParent "root" [deepNestedFence]) =
      (mParent "root" [deepNestedFence], 1)) := by
  refine ⟨?_, ?_, ?_⟩
  · intro parse jp fuel root
    exact fenceLoop_le _ 5 root
  · intro parse jp fuel n kar htext hval hchild hfence hparse
    cases fuel with
    | zero => rfl
    | succ f =>
        have hwc : n.withChildren [] = n := by
          rw [← hchild]
          exact MNode.withChildren_self n
        simp [processNode, htext, hval, hfence, hparse, hchild, hwc]
  · rfl

theorem fence_resolution_bounded_and_graceful_witness :
    processNode (fun _ => none) (fun _ => .err) 3 deepNestedFence =
      (deepNestedFence, false) := by
  exact fence_resolution_bounded_and_graceful.2.1 (fun _ => none)
    (fun _ => .err) 3 deepNestedFence
    ("panel", "",
      fenceWrap (fenceWrap (fenceWrap (fenceWrap (fenceWrap
        (fenceWrap "hi"))))))
    rfl (by decide) rfl (by rfl) rfl

/- ### `findMetadataTarget` (metadata-comments 189-219) -/

/-- Strategy 1's content-bearing parent kinds (193). -/
def isContentBearingKind (k : String) : Bool :=
  k = "heading" || k = "paragraph" || k = "tableCell" || k = "tableHeader"

/-- A sibling skipped by strategies 2 and 3: an html node that is an ADF
metadata comment (200, 208). -/
def isMetaCommentNode (c : MNode) : Bool :=
  c.kind = "html" && isAdfMetadataComment c.value

/-- `findMetadataTarget` (189-219). -/
def findMetadataTarget (parent : MNode) (i : Nat) : Option MNode :=
  if isContentBearingKind parent.kind then some parent
  else
    match (parent.children.drop (i + 1)).find?
        (fun c => !isMetaCommentNode c) with
    | some t => some t
    | none =>
        match ((parent.children.take i).reverse).find?
            (fun c => !isMetaCommentNode c) with
        | some t => some t
        | none => if parent.kind ≠ "root" then some parent else none

/-- Claim C8: target resolution follows the fixed order — content-bearing
parent first, then the next non-comment sibling, then the previous
non-comment sibling, then the parent unless it is the root — and, on any
tree whose root is not nested below itself, the resolved target is never
the document root. -/
theorem metadata_target_resolution_order :
    (∀ (parent : MNode) (i : Nat), isContentBearingKind parent.kind →
      findMetadataTarget parent i = some parent) ∧
    (∀ (parent : MNode) (i : Nat) (t : MNode),
      ¬ isContentBearingKind parent.kind →
      (parent.children.drop (i + 1)).find?
        (fun c => !isMetaCommentNode c) = some t →
      findMetadataTarget parent i = some t) ∧
    (∀ (parent : MNode) (i : Nat) (t : MNode),
      ¬ isContentBearingKind parent.kind →
      (parent.children.drop (i + 1)).find?
        (fun c => !isMetaCommentNode c) = none →
      ((parent.children.take i).reverse).find?
        (fun c => !isMetaCommentNode c) = some t →
      findMetadataTarget parent i = some t) ∧
    (∀ (parent : MNode) (i : Nat),
      ¬ isContentBearingKind parent.kind →
      (parent.children.drop (i + 1)).find?
        (fun c => !isMetaCommentNode c) = none →
      ((parent.children.take i).reverse).find?
        (fun c => !isMetaCommentNode c) = none →
      findMetadataTarget parent i =
        (if parent.kind ≠ "root" then some parent else none)) ∧
    (∀ (parent : MNode) (i : Nat) (t : MNode),
      (∀ c ∈ parent.children, c.kind ≠ "root") →
      findMetadataTarget parent i = some t → t.kind ≠ "root") := by
  refine ⟨?_, ?_, ?_, ?_, ?_⟩
  · intro parent i h
    simp [findMetadataTarget, h]
  · intro parent i t h h2
    simp [findMetadataTarget, h, h2]
  · intro parent i t h h2 h3
    simp [findMetadataTarget, h, h2, h3]
  · intro parent i h h2 h3
    simp [findMetadataTarget, h, h2, h3]
  · intro parent i t hch h
    unfold findMetadataTarget at h
    split at h
    · next hc =>
        cases h
        simp only [isContentBearingKind, Bool.or_eq_true, decide_eq_true_eq]
          at hc
        rcases hc with ((h1 | h1) | h1) | h1 <;> simp [h1]
    · split at h
      · next t2 hfind =>
          cases h
          have hmem : t ∈ parent.children.drop (i + 1) :=
            List.mem_of_find?_eq_some hfind
          exact hch t (List.mem_of_mem_drop hmem)
      · split at h
        · next t2 hfind =>
            cases h
            have hmem : t ∈ (parent.children.take i).reverse :=
              List.mem_of_find?_eq_some hfind
            exact hch t (List.mem_of_mem_take (List.mem_reverse.mp hmem))
        · split at h
          · next hroot =>
              cases h
              intro hr
              exact hroot hr
          · exact Option.noConfusion h

/-- Resolution on a concrete root: the comment's target is the following
heading, not the root. -/
theorem metadata_target_resolution_order_witness :
    findMetadataTarget
        (mParent "root"
          [mHtml "<!-- adf:heading id=\"x\" -->", mHeading 1 [mText "t"]])
        0 = some (mHeading 1 [mText "t"]) ∧
      (mHeading 1 [mText "t"]).kind ≠ "root" := by
  constructor
  · exact metadata_target_resolution_order.2.1
      (mParent "root"
        [mHtml "<!-- adf:heading id=\"x\" -->", mHeading 1 [mText "t"]])
      0 (mHeading 1 [mText "t"]) (by decide) rfl
  · exact metadata_target_resolution_order.2.2.2.2
      (mParent "root"
        [mHtml "<!-- adf:heading id=\"x\" -->", mHeading 1 [mText "t"]])
      0 (mHeading 1 [mText "t"]) (by decide)
      (metadata_target_resolution_order.2.1 _ 0 _ (by decide) rfl)

/- ### Span-style metadata comments (`processSpanMetadataComments`, 224-361) -/

/-- Marks derived from span-comment attributes (243-260 and 315-333). -/
def spanMarksOf (attrs : AList) : List Mark :=
  attrs.foldl
    (fun acc kv =>
      match kv with
      | (k, v) =>
          if k = "underline" then
            if v = .boolv true || v = .str "true" then
              acc ++ [{ type := "underline" }]
            else acc
          else if k = "textColor" then
            acc ++ [{ type := "textColor", attrs := [("color", v)] }]
          else if k = "backgroundColor" then
            acc ++ [{ type := "backgroundColor", attrs := [("color", v)] }]
          else if k = "subsup" then
            acc ++ [{ type := "subsup", attrs := [("type", v)] }]
          else acc) []

/-- Lazy attribute scan of the whole-span pattern: the smallest prefix
whose remainder is `\s*-->`; JS `.` admits no line terminator. -/
def spanAttrScan : Nat → List Char → Option (List Char × List Char)
  | 0, _ => none
  | fuel + 1, cs =>
      match dropLit "-->".toList (cs.dropWhile isWsChar) with
      | some rest => some ([], rest)
      | none =>
          match cs with
          | [] => none
          | c :: t =>
              if c = '\n' || c = '\r' then none
              else
                match spanAttrScan fuel t with
                | some (a, rest) => some (c :: a, rest)
                | none => none

/-- The closing comment `<!--\s*\/adf:\w+\s*-->` ending the input. -/
def spanCloseAtEnd (cs : List Char) : Bool :=
  match dropLit "<!--".toList cs with
  | none => false
  | some r1 =>
      match dropLit "/adf:".toList (r1.dropWhile isWsChar) with
      | none => false
      | some r2 =>
          match runWhile1 isWordChar r2 with
          | none => false
          | some (_, r3) => (r3.dropWhile isWsChar) = "-->".toList

/-- Lazy content scan up to the closing comment at the very end. -/
def spanContentScan : Nat → List Char → Option (List Char)
  | 0, _ => none
  | fuel + 1, cs =>
      if spanCloseAtEnd cs then some []
      else
        match cs with
        | [] => none
        | c :: t =>
            if c = '\n' || c = '\r' then none
            else
              match spanContentScan fuel t with
              | some a => some (c :: a)
              | none => none

/-- The whole-span html pattern
`^<!--\s*adf:(\w+)\s+(.*?)\s*-->(.*?)<!--\s*\/adf:\w+\s*-->$` (232);
returns node type, attribute string and wrapped content. -/
def spanMatch (v : String) : Option (String × String × String) :=
  match dropLit "<!--".toList v.toList with
  | none => none
  | some r1 =>
      match dropLit "adf:".toList (r1.dropWhile isWsChar) with
      | none => none
      | some r2 =>
          match runWhile1 isWordChar r2 with
          | none => none
          | some (nt, r3) =>
              match r3 with
              | c :: _ =>
                  if isWsChar c then
                    let r4 := r3.dropWhile isWsChar
                    match spanAttrScan (r4.length + 1) r4 with
                    | none => none
                    | some (attrs, afterOpen) =>
                        match spanContentScan (afterOpen.length + 1)
                            afterOpen with
                        | none => none
                        | some content => some (⟨nt⟩, ⟨attrs⟩, ⟨content⟩)
                  else none
              | [] => none

/-- The paragraph replacing a whole-span html node (263-277). -/
def spanReplacement (nt attrStr content raw : String) : MNode :=
  let attrs := parseAttributeString attrStr
  let marks := spanMarksOf attrs
  mParent "paragraph"
    [(mText content).withDataMeta
      [{ nodeType := nt, attrs := some attrs, raw := raw,
         marks := some marks }]]

def replaceIfSpanHtml (n : MNode) : MNode :=
  if n.kind = "html" then
    match spanMatch n.value with
    | some nac => spanReplacement nac.1 nac.2.1 nac.2.2 n.value
    | none => n
  else n

/-- The splice loop collapsing `open-comment, text, close-comment` triples
inside a paragraph (292-356). -/
def collapseTriples : List MNode → List MNode
  | a :: b :: c :: rest =>
      if a.kind = "html" && b.kind = "text" && c.kind = "html" then
        match matchWithAttrs a.value, matchClosing c.value with
        | some ntA, some nt2 =>
            if ntA.1 = nt2 then
              let attrs := parseAttributeString ntA.2
              ((mText b.value).withDataMeta
                [{ nodeType := ntA.1, attrs := some attrs,
                   raw := a.value ++ b.value ++ c.value,
                   marks := some (spanMarksOf attrs) }]) ::
                collapseTriples rest
            else a :: collapseTriples (b :: c :: rest)
        | _, _ => a :: collapseTriples (b :: c :: rest)
      else a :: collapseTriples (b :: c :: rest)
  | l => l

/-- `processSpanMetadataComments` (224-361) as a pre-order walk. -/
def processSpanGo : Nat → MNode → MNode
  | 0, n => n
  | fuel + 1, n =>
      let kids1 :=
        if n.kind = "paragraph" then collapseTriples n.children
        else n.children
      let kids2 := kids1.map replaceIfSpanHtml
      n.withChildren (kids2.map (processSpanGo fuel))

/- ### `processMetadataComments` (367-410) -/

/-- Where a comment's metadata is attached: the parent itself or the child
at an index (models the in-place reference mutation of the source). -/
inductive TargetRef where
  | parentRef
  | childRef (j : Nat)

/-- `findMetadataTarget` by position, over the comment's parent kind and
current sibling list. -/
def findMetadataTargetIdx (parentKind : String) (children : List MNode)
    (i : Nat) : Option TargetRef :=
  if isContentBearingKind parentKind then some .parentRef
  else
    match (children.drop (i + 1)).findIdx? (fun c => !isMetaCommentNode c)
        with
    | some o => some (.childRef (i + 1 + o))
    | none =>
        match ((children.take i).reverse).findIdx?
            (fun c => !isMetaCommentNode c) with
        | some o => some (.childRef (i - 1 - o))
        | none => if parentKind ≠ "root" then some .parentRef else none

def listModify : List MNode → Nat → (MNode → MNode) → List MNode
  | [], _, _ => []
  | c :: t, 0, f => f c :: t
  | c :: t, j + 1, f => c :: listModify t j f

def pushMeta (md : MetaC) (n : MNode) : MNode :=
  n.withDataMeta (n.dataMeta ++ [md])

/-- One visit step of the comment-attachment pass: state is the current
children, metadata attached to the parent, and the indices marked for
removal. -/
def attachStep (jp : JsonParse) (parentKind : String)
    (st : List MNode × List MetaC × List Nat) (i : Nat) :
    List MNode × List MetaC × List Nat :=
  match st with
  | (children, pmeta, removed) =>
      match children.get? i with
      | none => (children, pmeta, removed)
      | some c =>
          if isMetaCommentNode c then
            match parseAdfMetadataComment jp c.value with
            | some md =>
                match findMetadataTargetIdx parentKind children i with
                | some .parentRef =>
                    (children, pmeta ++ [md], removed ++ [i])
                | some (.childRef j) =>
                    (listModify children j (pushMeta md), pmeta,
                      removed ++ [i])
                | none => (children, pmeta, removed)
            | none => (children, pmeta, removed)
          else (children, pmeta, removed)

def keepNonRemoved (removed : List Nat) : Nat → List MNode → List MNode
  | _, [] => []
  | k, c :: t =>
      if removed.contains k then keepNonRemoved removed (k + 1) t
      else c :: keepNonRemoved removed (k + 1) t

/-- Attach every comment of one parent to its target and drop the consumed
comment nodes (375-407, restricted to one parent's children). -/
def attachMeta (jp : JsonParse) (parent : MNode) : MNode :=
  let st := (List.range parent.children.length).foldl
    (attachStep jp parent.kind) (parent.children, [], [])
  match st with
  | (children, pmeta, removed) =>
      (parent.withChildren (keepNonRemoved removed 0 children)).withDataMeta
        (parent.dataMeta ++ pmeta)

def processBlockGo (jp : JsonParse) : Nat → MNode → MNode
  | 0, n => n
  | fuel + 1, n =>
      let n1 := attachMeta jp n
      n1.withChildren (n1.children.map (processBlockGo jp fuel))

/-- `processMetadataComments` (367-410): span comments first, then the
block-comment attachment walk.  The fuel bounds the recursion depth that
the source bounds by tree finiteness. -/
def processMetadataComments (jp : JsonParse) (fuel : Nat) (root : MNode) :
    MNode :=
  processBlockGo jp fuel (processSpanGo fuel root)

/- ### Block-level mdast → ADF conversion (heading fragment, 1233-1381) -/

/-- Node-type aliases of `applyMetadataToAdfNode` (432-439). -/
def nodeTypeMapping (k : String) : Option String :=
  if k = "cell" then some "tableCell"
  else if k = "header" then some "tableHeader"
  else if k = "heading" then some "heading"
  else if k = "paragraph" then some "paragraph"
  else if k = "panel" then some "panel"
  else if k = "expand" then some "expand"
  else none

/-- `applyMetadataToAdfNode` (426-461): merge the attributes of every
matching metadata entry onto the node; matching consults the original
node's type. -/
def applyMetadataToAdfNode (adf : ANode) (metadata : List MetaC) : ANode :=
  if metadata.isEmpty then adf
  else
    metadata.foldl
      (fun updated md =>
        match md.attrs with
        | some a =>
            if md.nodeType = "cell" &&
                (adf.type = "tableCell" || adf.type = "tableHeader") then
              updated.withAttrs (alMerge updated.attrs a)
            else
              let expected := (nodeTypeMapping md.nodeType).getD md.nodeType
              if md.nodeType = adf.type || expected = adf.type then
                updated.withAttrs (alMerge updated.attrs a)
              else updated
        | none => updated) adf

/-- `convertMdastHeading` (1509-1515). -/
def convertMdastHeading (resolver : EmojiResolver) (pu : Bool) (fuel : Nat)
    (n : MNode) : ANode :=
  .mk "heading" "" [("level", .num n.depth)] []
    (convertMdastInlineNodes resolver pu fuel n.children)

/-- The `adf:inlineCard` link URLs collected by `postProcessInlineCards`
(1582-1592). -/
def collectInlineCardUrls : List MNode → List String
  | a :: b :: rest =>
      (if a.kind = "link" && b.kind = "html" &&
          containsStr b.value "adf:inlineCard" then [a.url] else []) ++
        collectInlineCardUrls (b :: rest)
  | _ => []

/-- `postProcessInlineCards` (1573-1613). -/
def postProcessInlineCards (content : List ANode) (orig : List MNode) :
    List ANode :=
  if orig.isEmpty then content
  else
    let urls := collectInlineCardUrls orig
    if urls.isEmpty then content
    else
      content.map (fun node =>
        if node.type = "text" && node.marks.any (fun m => m.type = "link")
            then
          match node.marks.find? (fun m => m.type = "link") with
          | some lm =>
              match alLookup lm.attrs "href" with
              | some (.str href) =>
                  if href ≠ "" && urls.contains href then
                    aNode "inlineCard" [("url", .str href)]
                  else node
              | _ => node
          | none => node
        else node)

/-- `convertMdastParagraph` (1517-1558): single media-image promotion,
then inline conversion with the inline-card post-pass. -/
def convertMdastParagraph (resolver : EmojiResolver) (pu : Bool)
    (fuel : Nat) (n : MNode) : Option ANode :=
  let promo : Option ANode :=
    match n.children with
    | [img] =>
        if img.kind = "image" && img.url ≠ "" &&
            (strStartsWith img.url "media:" ||
              strStartsWith img.url "adf:media:") then
          let pm := getNodeMetadata n
          let img2 :=
            if pm.isEmpty then img
            else img.withDataMeta (img.dataMeta ++ pm)
          convertMdastImage img2
        else none
    | _ => none
  match promo with
  | some m => some m
  | none =>
      let content := convertMdastInlineNodes resolver pu fuel n.children
      if content.isEmpty then none
      else
        some (.mk "paragraph" "" [] []
          (postProcessInlineCards content n.children))

/-- Result of one block conversion: skipped, a single node, or the
`__multipleNodes` marker for a text node split by social tokens. -/
inductive MdToAdfOut where
  | nothing
  | one (a : ANode)
  | multi (l : List ANode)

/-- `convertMdastNodeToADF` (1254-1381), restricted to the node kinds the
verified claims exercise (heading, paragraph, text, html, thematicBreak,
frontmatter and the unknown-node default); the remaining source cases
(lists, tables, code, adfFence, inline wrappers) fall outside the
fragments evaluated here.  Metadata from html comments is applied at the
end, except on the early returns (frontmatter, metadata comments, the
multi-node marker), exactly as in the source. -/
def convertMdastNodeToADF (resolver : EmojiResolver) (pu : Bool) :
    Nat → MNode → MdToAdfOut
  | 0, _ => .nothing
  | fuel + 1, n =>
      if n.kind = "yaml" || n.kind = "toml" then .nothing
      else if n.kind = "html" && isAdfMetadataComment n.value then .nothing
      else if n.kind = "html" && isAdfProcessingDirective n.value then
        .nothing
      else if n.kind = "html" && !pu then .nothing
      else
        let step : MdToAdfOut :=
          if n.kind = "heading" then
            .one (convertMdastHeading resolver pu fuel n)
          else if n.kind = "paragraph" then
            match convertMdastParagraph resolver pu fuel n with
            | some a => .one a
            | none => .nothing
          else if n.kind = "thematicBreak" then .one (aNode "rule")
          else if n.kind = "text" then
            match n.dataMeta with
            | md :: _ =>
                match md.marks with
                | some ms => .one (ANode.mk "text" n.value [] ms [])
                | none =>
                    match parseInlineContentWithSocialElements resolver
                        n.value with
                    | [a] => .one a
                    | [] => .one (aText "")
                    | l => .multi l
            | [] =>
                match parseInlineContentWithSocialElements resolver
                    n.value with
                | [a] => .one a
                | [] => .one (aText "")
                | l => .multi l
          else if n.kind = "html" then
            .one (aNode "paragraph" [] [aText ("[HTML: " ++ n.value ++ "]")])
          else if pu then
            .one (aNode "paragraph" []
              [aText ("[Unknown node: " ++ n.kind ++ "]")])
          else .nothing
        match step with
        | .one a =>
            let md := getNodeMetadata n
            .one (if md.isEmpty then a else applyMetadataToAdfNode a md)
        | x => x

/-- `convertMdastNodesToADF` (1233-1249). -/
def convertMdastNodesToADF (resolver : EmojiResolver) (pu : Bool)
    (fuel : Nat) (ns : List MNode) : List ANode :=
  ns.foldr
    (fun n acc =>
      match convertMdastNodeToADF resolver pu fuel n with
      | .nothing => acc
      | .one a => a :: acc
      | .multi l => l ++ acc) []

/- ### ADF → mdast (reverse) and the annotation comment generator -/

/-- `filterSignificantAttributes` (489-528): syntax-implied keys. -/
def alwaysFilteredFor (nt : String) : List String :=
  if nt = "heading" then ["level"]
  else if nt = "panel" then ["panelType"]
  else if nt = "codeBlock" then ["language"]
  else if nt = "orderedList" then ["order"]
  else if nt = "media" then ["alt"]
  else []

/-- `filterSignificantAttributes` (499-504): schema defaults. -/
def defaultValuesFor (nt : String) : AList :=
  if nt = "table" then
    [("isNumberColumnEnabled", .boolv false), ("layout", .str "default")]
  else []

def filterSignificantAttributes (nt : String) (attrs : AList) : AList :=
  attrs.foldl
    (fun sig kv =>
      match kv with
      | (k, v) =>
          if (alwaysFilteredFor nt).contains k then sig
          else
            match alLookup (defaultValuesFor nt) k with
            | some d => if d = v then sig else alSet sig k v
            | none => alSet sig k v) []

/-- JS template interpolation of an attribute value. -/
def attrToJsString : AttrV → String
  | .str s => s
  | .num n => toString n
  | .boolv b => if b then "true" else "false"

def joinWithSpace : List String → String
  | [] => ""
  | [s] => s
  | s :: t => s ++ " " ++ joinWithSpace t

def dq : String := ⟨[dquote]⟩

/-- `generateMetadataComment` (466-484). -/
def generateMetadataComment (nt : String) (attrs : AList) : String :=
  if attrs.isEmpty then ""
  else
    let sig := filterSignificantAttributes nt attrs
    if sig.isEmpty then ""
    else
      "<!-- adf:" ++ nt ++ " " ++
        joinWithSpace (sig.map (fun kv =>
          kv.1 ++ "=" ++ dq ++ attrToJsString kv.2 ++ dq)) ++ " -->"

/-- `extractContentAsText` (2166-2178). -/
def extractContentAsText : Nat → List ANode → String
  | 0, _ => ""
  | fuel + 1, l =>
      String.join (l.map (fun node =>
        if node.type = "text" then node.text
        else if !node.content.isEmpty then
          extractContentAsText fuel node.content
        else ""))

/-- `(node.attrs as any)?.level || 1` (2010): a positive numeric level, or
the fallback 1 (non-numeric levels fall back to 1 in this model). -/
def jsLevelOf (attrs : AList) : Nat :=
  match alLookup attrs "level" with
  | some (.num k) => if k = 0 then 1 else k.toNat
  | _ => 1

/-- `convertAdfInlineToMdast` (2127-2161): fold the marks of a text leaf
into nested wrapper nodes. -/
def convertAdfInlineToMdast (content : List ANode) : List MNode :=
  content.map (fun node =>
    if node.type = "text" then
      node.marks.foldl
        (fun result mark =>
          if mark.type = "strong" then mParent "strong" [result]
          else if mark.type = "em" then mParent "emphasis" [result]
          else if mark.type = "code" then mInlineCode node.text
          else if mark.type = "link" then
            let href :=
              match alLookup mark.attrs "href" with
              | some (.str s) => s
              | _ => ""
            .mk "link" "" 0 none none "" [] href none none [] [result]
          else result)
        (mText node.text)
    else mText ("[" ++ node.type ++ "]"))

/-- `convertAdfNodeToMdast` (2003-2122), restricted to the heading,
paragraph, panel and default cases the verified claims exercise (the
media/mediaSingle cases are outside these fragments); a node with
significant custom attributes is emitted as an annotation comment followed
by the node. -/
def convertAdfNodeToMdast (n : ANode) : List MNode :=
  let mdastNode : MNode :=
    if n.type = "heading" then
      mHeading (jsLevelOf n.attrs) (convertAdfInlineToMdast n.content)
    else if n.type = "paragraph" then
      mParent "paragraph" (convertAdfInlineToMdast n.content)
    else if n.type = "panel" then
      let ptype :=
        match alLookup n.attrs "panelType" with
        | some v => if jsFalsy v then .str "info" else v
        | none => .str "info"
      .mk "adfFence" (extractContentAsText 9 n.content) 0 none none "panel"
        (alMerge [("type", ptype)] n.attrs) "" none none [] []
    else mParent "paragraph" [mText ("[" ++ n.type ++ "]")]
  let comment := generateMetadataComment n.type n.attrs
  if comment ≠ "" then [mHtml comment, mdastNode] else [mdastNode]

/- ### Claim C6: the annotated-heading round trip -/

/-- The heading with the claim's attributes. -/
def c6Heading : ANode :=
  ANode.mk "heading" ""
    [("level", .num 1), ("id", .str "x"), ("textAlign", .str "center")] []
    [aText "x"]

/-- Reverse conversion to mdast, remark stringify/parse (an external
collaborator, the identity on an html comment line followed by an ATX
heading), metadata processing, and forward conversion back to ADF. -/
def headingRoundTrip (resolver : EmojiResolver) (jp : JsonParse)
    (h : ANode) : List ANode :=
  let root := mParent "root" (convertAdfNodeToMdast h)
  let processed := processMetadataComments jp 9 root
  convertMdastNodesToADF resolver true 9 processed.children

/-- Claim C6: converting a heading with attrs
`(level 1, id "x", textAlign "center")` to markup and back reproduces the
attributes exactly — `level` is filtered out of the emitted annotation and
regenerated from the heading depth, while `id` and `textAlign` travel
through the generated `<!-- adf:heading id="x" textAlign="center" -->`
comment and are re-applied onto the rebuilt heading. -/
theorem annotated_heading_attrs_round_trip :
    headingRoundTrip (fun _ => none) (fun _ => none) c6Heading =
        [c6Heading] ∧
      generateMetadataComment "heading" c6Heading.attrs =
        "<!-- adf:heading id=" ++ dq ++ "x" ++ dq ++ " textAlign=" ++ dq ++
          "center" ++ dq ++ " -->" := by
  exact ⟨rfl, rfl⟩

/- ### The conversion engine façade (`MarkdownToAdfEngine`) -/

/-- Target-schema document root. -/
structure ADFDoc where
  version : Nat
  type : String
  content : List ANode
deriving Repr

def emptyAdfDoc : ADFDoc :=
  { version := 1, type := "doc", content := [] }

/-- Outcome of the input guard of `convert` (80-98): an already finished
document, or the string handed on to preprocessing and parsing. -/
inductive GuardOut where
  | done (d : ADFDoc)
  | proceed (s : String)

/-- The input guard of `convert` (80-98): `none` models a non-string
input; a falsy (empty) or non-string input raises in strict mode and
yields the empty document otherwise; whitespace-only input yields the
empty document in both modes. -/
def convertGuard (strict : Bool) (input : Option String) :
    Except String GuardOut :=
  match input with
  | none =>
      if strict then
        .error "Invalid markdown input: must be a non-empty string"
      else .ok (.done emptyAdfDoc)
  | some s =>
      if s.toList = [] then
        if strict then
          .error "Invalid markdown input: must be a non-empty string"
        else .ok (.done emptyAdfDoc)
      else if jsTrimL s.toList = [] then .ok (.done emptyAdfDoc)
      else .ok (.proceed s)

theorem dropWhile_eq_nil_of_all {p : Char → Bool} :
    ∀ cs : List Char, cs.all p → cs.dropWhile p = [] := by
  intro cs h
  induction cs with
  | nil => rfl
  | cons c t ih =>
      simp only [List.all_cons, Bool.and_eq_true] at h
      simp [List.dropWhile, h.1, ih h.2]

theorem jsTrimL_eq_nil_of_all_ws {cs : List Char} (h : cs.all isWsChar) :
    jsTrimL cs = [] := by
  unfold jsTrimL
  rw [dropWhile_eq_nil_of_all cs h]
  rfl

/-- Claim C7: non-strict conversion of non-string, empty or
whitespace-only input returns exactly the empty document
`(version 1, type "doc", content [])`; strict conversion of non-string or
empty input raises instead of returning a document. -/
theorem empty_input_behavior :
    (convertGuard false none = .ok (.done emptyAdfDoc)) ∧
    (convertGuard false (some "") = .ok (.done emptyAdfDoc)) ∧
    (∀ t : String, t.toList.all isWsChar →
      convertGuard false (some t) = .ok (.done emptyAdfDoc)) ∧
    (convertGuard true none =
      .error "Invalid markdown input: must be a non-empty string") ∧
    (convertGuard true (some "") =
      .error "Invalid markdown input: must be a non-empty string") ∧
    emptyAdfDoc = ⟨1, "doc", []⟩ := by
  refine ⟨rfl, rfl, ?_, rfl, rfl, rfl⟩
  intro t h
  have htrim := jsTrimL_eq_nil_of_all_ws h
  simp only [convertGuard]
  simp [htrim]
  intro _
  exact htrim

theorem empty_input_behavior_witness :
    convertGuard false (some "  \n ") = .ok (.done emptyAdfDoc) := by
  exact empty_input_behavior.2.2.1 "  \n " (by decide)

/-- `preprocessConsecutiveHtmlComments` (562-565): the global replace of
`-->(\s*<!--)` by the fixed string; one scan step per position. -/
def trySeam (cs : List Char) : Option (List Char) :=
  match dropLit "-->".toList cs with
  | none => none
  | some r1 => dropLit "<!--".toList (r1.dropWhile isWsChar)

def ppccGo : Nat → List Char → List Char
  | 0, cs => cs
  | _ + 1, [] => []
  | fuel + 1, c :: t =>
      match trySeam (c :: t) with
      | some rest => "-->\n<!-- ".toList ++ ppccGo fuel rest
      | none => c :: ppccGo fuel t

def preprocessConsecutiveHtmlComments (s : String) : String :=
  ⟨ppccGo s.toList.length s.toList⟩

/-- No position of the input starts a `-->` whitespace `<!--` seam. -/
def seamFree : List Char → Bool
  | [] => true
  | c :: t => !(trySeam (c :: t)).isSome && seamFree t

theorem ppccGo_id_of_seamFree :
    ∀ (fuel : Nat) (cs : List Char), seamFree cs → ppccGo fuel cs = cs := by
  intro fuel
  induction fuel with
  | zero => intro cs _; rfl
  | succ f ih =>
      intro cs h
      cases cs with
      | nil => rfl
      | cons c t =>
          simp only [seamFree, Bool.and_eq_true, Bool.not_eq_true'] at h
          unfold ppccGo
          cases hs : trySeam (c :: t) with
          | some r => rw [hs] at h; simp at h
          | none => rw [ih t h.2]

/-- Engine configuration (constructor defaults, 25-40). -/
structure EngineOptions where
  strict : Bool := false
  gfm : Bool := true
  frontmatter : Bool := true
  enableAdfExtensions : Bool := true
  maxDepth : Nat := 5
  enableLogging : Bool := false
  preserveWhitespace : Bool := false
  validateInput : Bool := false
  preserveUnknownNodes : Bool := true
  maxRetries : Nat := 3
  retryDelay : Nat := 100
  fallbackStrategy : String := "best-effort"

/-- The state an engine instance holds after construction: its options
and the collaborators fixed by `createProcessor` (the unified remark
parser, the emoji table, `JSON.parse`, the nested-block preprocessor) plus
a recursion-depth bound.  `convert` reads these fields and assigns none of
them. -/
structure EngineState where
  options : EngineOptions
  processorParse : String → MNode
  resolver : EmojiResolver
  jsonParse : JsonParse
  jsonOutcome : JsonOutcomeFn
  preprocessNested : String → String
  fuel : Nat

/-- `cleanupEmptyParagraphs` (530-557): drop paragraphs whose children
are all empty-or-whitespace text leaves, recursively. -/
def cleanupGo : Nat → ANode → Option ANode
  | 0, n => some n
  | fuel + 1, n =>
      if n.type = "paragraph" &&
          n.content.all (fun c =>
            c.type = "text" &&
              (c.text.toList = [] || jsTrimL c.text.toList = [])) then
        none
      else some (n.withContent (n.content.filterMap (cleanupGo fuel)))

def cleanupEmptyParagraphs (fuel : Nat) (doc : ADFDoc) : ADFDoc :=
  { doc with content := doc.content.filterMap (cleanupGo fuel) }

/-- `convertMdastToAdfSync` (303-362): metadata comments, fence blocks,
schema building, cleanup.  (The parsed frontmatter is computed by the
source but never used by `buildADFFromMdast`, so it does not appear.) -/
def convertMdastToAdfSync (st : EngineState) (tree : MNode) : ADFDoc :=
  let t1 := processMetadataComments st.jsonParse st.fuel tree
  let t2 := (postProcessAdfFenceBlocks
    (fun s => some (st.processorParse s).children) st.jsonOutcome st.fuel
    t1).1
  cleanupEmptyParagraphs st.fuel
    { version := 1, type := "doc"
      content := convertMdastNodesToADF st.resolver
        st.options.preserveUnknownNodes st.fuel t2.children }

/-- `convert` (80-132): the guard, the two preprocessors, the external
parse, and the synchronous pipeline; the engine state is returned
unchanged because `convert` assigns no field. -/
def convertS (st : EngineState) (input : Option String) :
    Except String ADFDoc × EngineState :=
  (match convertGuard st.options.strict input with
   | .error e => .error e
   | .ok (.done d) => .ok d
   | .ok (.proceed s) =>
       .ok (convertMdastToAdfSync st
         (st.processorParse
           (st.preprocessNested (preprocessConsecutiveHtmlComments s)))),
   st)

/-- Claim C9: the forward conversion is deterministic — a call leaves the
engine state exactly as it found it, and a second call on the state left
by the first produces a structurally identical result, for every engine
configuration, collaborator behaviour and input.  (The embedding is a
function of the constructed state and the input alone because `convert`
reads no clock, no randomness and no mutable field of the engine.) -/
theorem convert_deterministic (st : EngineState) (input : Option String) :
    (convertS st input).2 = st ∧
      (convertS (convertS st input).2 input).1 = (convertS st input).1 := by
  exact ⟨rfl, rfl⟩

/- ### Claim C10: the consecutive-comment rewrite -/

/-- A concrete engine state for exercising the pipeline plumbing. -/
def testEngineState : EngineState :=
  { options := {}
    processorParse := fun _ => mParent "root" []
    resolver := fun _ => none
    jsonParse := fun _ => none
    jsonOutcome := fun _ => .err
    preprocessNested := fun s => s
    fuel := 9 }

/-- Claim C10: before parsing, `convert` rewrites every occurrence of
`-->` + optional whitespace + `<!--` in the raw input into `-->` newline
`<!-- `; the rewrite is a plain string replace applied to the whole input
— including text inside fenced code blocks — so the literal sequence is
not preserved verbatim (first two conjuncts); inputs without such a seam
pass through unchanged (third conjunct); several seams are all rewritten
(fourth conjunct); and the string handed to the parser by `convert` is
exactly the rewritten one (fifth conjunct). -/
theorem consecutive_comment_seams_rewritten_before_parse :
    (preprocessConsecutiveHtmlComments "```\n--> <!--boom\n```" =
      "```\n-->\n<!-- boom\n```") ∧
    (containsStr (preprocessConsecutiveHtmlComments "```\n--> <!--boom\n```")
      "--> <!--" = false) ∧
    (∀ s : String, seamFree s.toList →
      preprocessConsecutiveHtmlComments s = s) ∧
    (preprocessConsecutiveHtmlComments "a--><!--b--> \t<!--c" =
      "a-->\n<!-- b-->\n<!-- c") ∧
    (∀ (st : EngineState) (s : String),
      convertGuard st.options.strict (some s) = .ok (.proceed s) →
      (convertS st (some s)).1 =
        .ok (convertMdastToAdfSync st
          (st.processorParse
            (st.preprocessNested
              (preprocessConsecutiveHtmlComments s))))) := by
  refine ⟨rfl, by decide, ?_, rfl, ?_⟩
  · intro s h
    unfold preprocessConsecutiveHtmlComments
    rw [ppccGo_id_of_seamFree _ _ h]
    rfl
  · intro st s h
    simp [convertS, h]

theorem consecutive_comment_seams_rewritten_before_parse_witness :
    (preprocessConsecutiveHtmlComments "no seams here" = "no seams here") ∧
    (convertS testEngineState (some "x--><!--y")).1 =
      .ok (convertMdastToAdfSync testEngineState
        (testEngineState.processorParse
          (testEngineState.preprocessNested
            (preprocessConsecutiveHtmlComments "x--><!--y")))) := by
  constructor
  · exact consecutive_comment_seams_rewritten_before_parse.2.2.1
      "no seams here" (by decide)
  · exact consecutive_comment_seams_rewritten_before_parse.2.2.2.2
      testEngineState "x--><!--y" (by rfl)

end EmadfSpec
